import Mathlib

/-!
Verification development for the clawlet gateway.

Shallow embedding of the core functions of the repository:
the session store (session.go), the Telegram channel retry logic
(telegram.go), the Slack events HTTP handler (slack.go), the web-fetch
host policy (tool_web_fetch host helpers) and the exec safety guard
(tools/exec_guard.go).  Go strings are modelled as Lean `String`
(lists of unicode scalar values), Go slices as `List`, Go `int`/`int64`
as `Int`, Go `uint64` counters as `Nat` (the session version counter is
only ever incremented and compared for equality, so wrapping is
immaterial to its observable behaviour), and environment-dependent
results (home directory, config directory, working directory, clock,
file size on disk) as explicit parameters.
-/

namespace Clawlet

/-! ### Go string primitives -/

/-- Go `unicode.IsSpace`: `\t \n \v \f \r space NEL NBSP` and the Unicode
category-Z space characters, by code point. -/
def goIsSpace (c : Char) : Bool :=
  decide ((9 ≤ c.toNat ∧ c.toNat ≤ 13) ∨ c.toNat = 32 ∨
    c.toNat = 0x85 ∨ c.toNat = 0xa0 ∨ c.toNat = 0x1680 ∨
    (0x2000 ≤ c.toNat ∧ c.toNat ≤ 0x200a) ∨
    c.toNat = 0x2028 ∨ c.toNat = 0x2029 ∨ c.toNat = 0x202f ∨
    c.toNat = 0x205f ∨ c.toNat = 0x3000)

/-- Drop the characters satisfying `p` from both ends of a list. -/
def listTrim (p : Char → Bool) (l : List Char) : List Char :=
  ((l.dropWhile p).reverse.dropWhile p).reverse

/-- Go `strings.TrimSpace`. -/
def goTrimSpace (s : String) : String :=
  ⟨listTrim goIsSpace s.data⟩

/-- Go `strings.Trim` with a fixed cutset. -/
def goTrimCutset (cut : List Char) (s : String) : String :=
  ⟨listTrim (cut.contains ·) s.data⟩

/-- Go `strings.ToLower`, restricted to the ASCII case mapping (the guard
patterns and domain policies only involve ASCII; the simple Unicode case
map on non-ASCII letters never produces an ASCII character). -/
def goToLower (s : String) : String :=
  ⟨s.data.map fun c =>
    if decide ('A' ≤ c ∧ c ≤ 'Z') then Char.ofNat (c.toNat + 32) else c⟩

/-- First index at which `sub` occurs in `l` (Go `strings.Index`). -/
def goIndexAux (sub : List Char) : List Char → Nat → Option Nat
  | [], i => if sub.isPrefixOf [] then some i else none
  | c :: rest, i =>
    if sub.isPrefixOf (c :: rest) then some i else goIndexAux sub rest (i + 1)

def goIndex (s sub : String) : Option Nat :=
  goIndexAux sub.data s.data 0

/-- Go `strings.Contains`. -/
def goContains (s sub : String) : Bool :=
  (goIndex s sub).isSome

/-- Go `strings.HasSuffix`. -/
def goHasSuf (s suf : String) : Bool :=
  suf.data.isSuffixOf s.data

/-- Go `strings.HasPrefix`. -/
def goHasPre (s pre : String) : Bool :=
  pre.data.isPrefixOf s.data

/-- Go `strings.TrimPrefix`. -/
def goTrimPre (s pre : String) : String :=
  if goHasPre s pre then ⟨s.data.drop pre.data.length⟩ else s

/-- Go `strings.TrimSuffix`. -/
def goTrimSuf (s suf : String) : String :=
  if goHasSuf s suf then ⟨s.data.take (s.data.length - suf.data.length)⟩ else s

/-- Go `strings.Fields`: split around runs of whitespace, dropping empties. -/
def goFields (s : String) : List String :=
  ((s.data.splitOnP goIsSpace).filter (· ≠ [])).map fun l => ⟨l⟩

/-- Go `strings.Split` with a non-empty separator, on character lists;
`fuel` bounds the number of steps (each consumes at least one
character, so `l.length` suffices). -/
def goSplitFuel (sep : List Char) : Nat → List Char → List Char → List (List Char)
  | 0, l, acc => [acc.reverse ++ l]
  | _ + 1, [], acc => [acc.reverse]
  | fuel + 1, c :: rest, acc =>
    if sep.isPrefixOf (c :: rest) then
      acc.reverse :: goSplitFuel sep fuel (rest.drop (sep.length - 1)) []
    else goSplitFuel sep fuel rest (c :: acc)

/-- Go `strings.Split` (callers only use non-empty separators). -/
def goSplit (s sep : String) : List String :=
  (goSplitFuel sep.data s.data.length s.data []).map fun l => ⟨l⟩

/-! ### Session store (`session/session.go`) -/

/-- A persisted chat message (`session.Message`).  The JSON encoding is
treated as lossless: on-disk lines are modelled structurally. -/
structure Message where
  role : String
  content : String
  timestamp : String
  toolsUsed : List String
deriving DecidableEq, Repr

/-- The `_type=metadata` line of a session file (`session.metadataLine`);
the free-form metadata map is irrelevant to the claims and omitted. -/
structure MetadataLine where
  createdAt : String
  updatedAt : String
deriving DecidableEq, Repr

/-- In-memory session state (`session.Session`).  The key and the two
timestamps do not influence any claimed behaviour; `version` is a Go
`uint64` that is only incremented and compared for equality, modelled
as `Nat`. -/
structure Session where
  messages : List Message
  persistedMessages : Nat
  appendSaves : Nat
  metadataLineCount : Nat
  needsCompaction : Bool
  version : Nat
deriving DecidableEq, Repr

/-- `session.New`: a fresh session. -/
def Session.new : Session :=
  { messages := [], persistedMessages := 0, appendSaves := 0,
    metadataLineCount := 0, needsCompaction := false, version := 0 }

/-- The name-cleaning loop of `AddWithTools`: trim each name, drop the
ones that trim to empty. -/
def cleanToolsUsed (toolsUsed : List String) : List String :=
  (toolsUsed.map goTrimSpace).filter (· ≠ "")

/-- `Session.AddWithTools` (the caller supplies the `time.Now` timestamp). -/
def Session.addWithTools (s : Session) (role content ts : String)
    (toolsUsed : List String) : Session :=
  { s with
    messages := s.messages ++
      [{ role := role, content := content, timestamp := ts,
         toolsUsed := cleanToolsUsed toolsUsed }],
    version := s.version + 1 }

/-- `Session.Add` delegates to `AddWithTools` with no tools. -/
def Session.add (s : Session) (role content ts : String) : Session :=
  s.addWithTools role content ts []

/-- `Session.ApplyConsolidation`: compare-and-swap on `version`, then
replace the messages with the last `keep` (a Go `int`). -/
def Session.applyConsolidation (s : Session) (version : Nat) (keep : Int) :
    Bool × Session :=
  if s.version ≠ version then (false, s)
  else if keep < 0 ∨ (s.messages.length : Int) ≤ keep then (false, s)
  else
    (true,
     { s with
       messages := s.messages.drop (s.messages.length - keep.toNat),
       version := s.version + 1,
       needsCompaction := true })

/-- One line of a session `.jsonl` file. -/
inductive Line where
  | meta (m : MetadataLine) : Line
  | msg (m : Message) : Line
deriving DecidableEq, Repr

/-- The message lines of a file, in order (what `Load` accumulates). -/
def fileMessages (f : List Line) : List Message :=
  f.filterMap fun
    | .msg m => some m
    | .meta _ => none

/-- The number of `_type=metadata` lines in a file. -/
def metaLineCount (f : List Line) : Nat :=
  (f.filter fun
    | .meta _ => true
    | .msg _ => false).length

def appendCompactionEverySaves : Nat := 100
def appendCompactionMaxMetadataLines : Nat := 200

/-- `shouldCompact`; the on-disk size test (`os.Stat ≥ maxBytes`) is an
environment observation, passed in as `sizeBig`. -/
def shouldCompact (sizeBig : Bool) (s : Session) : Bool :=
  s.needsCompaction ||
  (decide (0 < appendCompactionEverySaves) &&
    decide (appendCompactionEverySaves ≤ s.appendSaves)) ||
  (decide (0 < appendCompactionMaxMetadataLines) &&
    decide (appendCompactionMaxMetadataLines ≤ s.metadataLineCount)) ||
  sizeBig

/-- `saveAppendLocked`: append one fresh metadata line and the messages
from `persistedMessages` on; bump the counters. -/
def saveAppendLocked (meta : MetadataLine) (s : Session) (f : List Line) :
    Session × List Line :=
  ({ s with
      persistedMessages := s.messages.length,
      appendSaves := s.appendSaves + 1,
      metadataLineCount := s.metadataLineCount + 1 },
   f ++ Line.meta meta :: (s.messages.drop s.persistedMessages).map Line.msg)

/-- `saveCompactLocked`: rewrite the file as one metadata line plus all
messages; reset the counters. -/
def saveCompactLocked (meta : MetadataLine) (s : Session) : Session × List Line :=
  ({ s with
      persistedMessages := s.messages.length,
      appendSaves := 0,
      metadataLineCount := 1,
      needsCompaction := false },
   Line.meta meta :: s.messages.map Line.msg)

/-- `session.Save`: flag a truncating mutation, then choose append or
compact. -/
def sessionSave (meta : MetadataLine) (sizeBig : Bool) (s : Session)
    (f : List Line) : Session × List Line :=
  let s := if s.messages.length < s.persistedMessages
           then { s with needsCompaction := true } else s
  if shouldCompact sizeBig s then saveCompactLocked meta s
  else saveAppendLocked meta s f

/-- One store operation of a session's life: an append
(`Add`/`AddWithTools`) or a `Save` (with its environment observations). -/
inductive SessionOp where
  | add (role content ts : String) (tools : List String) : SessionOp
  | save (meta : MetadataLine) (sizeBig : Bool) : SessionOp

/-- Run a list of operations on a session and its on-disk file. -/
def runOps : Session × List Line → List SessionOp → Session × List Line
  | sf, [] => sf
  | (s, f), .add role content ts tools :: rest =>
      runOps (s.addWithTools role content ts tools, f) rest
  | (s, f), .save meta sizeBig :: rest =>
      runOps (sessionSave meta sizeBig s f) rest

/-- The messages appended by a list of operations, in order. -/
def opMessages : List SessionOp → List Message
  | [] => []
  | .add role content ts tools :: rest =>
      { role := role, content := content, timestamp := ts,
        toolsUsed := cleanToolsUsed tools } :: opMessages rest
  | .save _ _ :: rest => opMessages rest

/-- `safeFilename`'s character class `[a-zA-Z0-9._-]`, by code point. -/
def safeFilenameChar (c : Char) : Bool :=
  decide ((97 ≤ c.toNat ∧ c.toNat ≤ 122) ∨ (65 ≤ c.toNat ∧ c.toNat ≤ 90) ∨
    (48 ≤ c.toNat ∧ c.toNat ≤ 57) ∨ c.toNat = 46 ∨ c.toNat = 95 ∨ c.toNat = 45)

/-- `safeRe.ReplaceAllString(s, "_")`: each maximal run of characters
outside the class becomes a single underscore.  `inRun` records whether
the previous character was part of such a run. -/
def collapseUnsafe : Bool → List Char → List Char
  | _, [] => []
  | inRun, c :: rest =>
    if safeFilenameChar c then c :: collapseUnsafe false rest
    else if inRun then collapseUnsafe true rest
    else '_' :: collapseUnsafe true rest

/-- `session.safeFilename`: trim whitespace, collapse unsafe runs to
`_`, trim surrounding `._-`, defaulting to `"default"` when empty. -/
def safeFilename (s : String) : String :=
  if goTrimSpace s = "" then "default"
  else if goTrimCutset ['.', '_', '-'] ⟨collapseUnsafe false (goTrimSpace s).data⟩ = ""
    then "default"
  else goTrimCutset ['.', '_', '-'] ⟨collapseUnsafe false (goTrimSpace s).data⟩

/-! ### Telegram channel (`channels/telegram/telegram.go`) -/

/-- Decimal digit run to a number; `none` when empty or non-digit. -/
def parseDecDigits : List Char → Option Nat
  | [] => none
  | l =>
    if l.all (fun c => decide ('0' ≤ c ∧ c ≤ '9')) then
      some (l.foldl (fun n c => n * 10 + (c.toNat - 48)) 0)
    else none

/-- Go `strconv.ParseInt(s, 10, 64)` (also `strconv.Atoi` on 64-bit
platforms): optional sign, decimal digits, 64-bit range check. -/
def goParseInt64 (s : String) : Option Int :=
  match s.data with
  | [] => none
  | '+' :: rest =>
      (parseDecDigits rest).bind fun n =>
        if n ≤ 2 ^ 63 - 1 then some (n : Int) else none
  | '-' :: rest =>
      (parseDecDigits rest).bind fun n =>
        if n ≤ 2 ^ 63 then some (-(n : Int)) else none
  | l =>
      (parseDecDigits l).bind fun n =>
        if n ≤ 2 ^ 63 - 1 then some (n : Int) else none

/-- `bus.Delivery`. -/
structure Delivery where
  messageID : String := ""
  replyToID : String := ""
  threadID : String := ""
  isDirect : Bool := false
deriving DecidableEq, Repr

/-- `bus.OutboundMessage` (attachment-free fields). -/
structure OutboundMessage where
  channel : String := ""
  chatID : String := ""
  content : String := ""
  replyTo : String := ""
  delivery : Delivery := {}
deriving DecidableEq, Repr

/-- `bus.InboundMessage`. -/
structure InboundMessage where
  channel : String
  senderID : String
  chatID : String
  content : String
  sessionKey : String
  delivery : Delivery := {}
deriving DecidableEq, Repr

/-- `resolveTelegramReplyTarget`: first candidate (structured id, then
legacy `ReplyTo`) that parses to a positive int64, else 0. -/
def resolveTelegramReplyTarget (msg : OutboundMessage) : Int :=
  let candidates := [goTrimSpace msg.delivery.replyToID, goTrimSpace msg.replyTo]
  go candidates
where
  go : List String → Int
  | [] => 0
  | c :: rest =>
    if c = "" then go rest
    else
      match goParseInt64 c with
      | some n => if 0 < n then n else go rest
      | none => go rest

/-- Properties of a Go error value as observed by
`shouldRetryTelegramSend`: `errors.Is` on the two context sentinels,
`errors.As` on `*tgbot.TooManyRequestsError` (carrying `RetryAfter`)
and on `net.Error` (carrying `Timeout()`/`Temporary()`), and the
`Error()` string. -/
structure GoErr where
  isCanceled : Bool := false
  isDeadlineExceeded : Bool := false
  tooManyRetryAfter : Option Int := none
  netErr : Option (Bool × Bool) := none
  errString : String := ""
deriving Repr

/-- `time.Duration` values (nanoseconds). -/
def nanosecond : Int := 1
def millisecond : Int := 1000000
def second : Int := 1000000000

/-- `telegramSendBackoff`. -/
def telegramSendBackoff (attempt : Int) : Int :=
  let attempt := if attempt < 1 then 1 else attempt
  let shift := min (attempt - 1) 4
  300 * millisecond * 2 ^ shift.toNat

/-- `isTelegram5xxError`: look for `"sendMessage, "` in the error text and
parse the following three characters as a status code in `[500, 599]`. -/
def isTelegram5xxError (msg : String) : Bool :=
  match goIndex msg "sendMessage, " with
  | none => false
  | some idx =>
    let rest := msg.data.drop (idx + ("sendMessage, " : String).data.length)
    if rest.length < 3 then false
    else
      match goParseInt64 ⟨rest.take 3⟩ with
      | none => false
      | some code => decide (500 ≤ code ∧ code ≤ 599)

/-- `shouldRetryTelegramSend` on a non-nil error (`none` models `err == nil`). -/
def shouldRetryTelegramSend (err : Option GoErr) (attempt : Int) : Bool × Int :=
  match err with
  | none => (false, 0)
  | some e =>
    if e.isCanceled || e.isDeadlineExceeded then (false, 0)
    else
      match e.tooManyRetryAfter with
      | some retryAfter =>
          if 0 < retryAfter then (true, retryAfter * second)
          else (true, telegramSendBackoff attempt)
      | none =>
          match e.netErr with
          | some (timeout, temporary) =>
              if timeout || temporary then (true, telegramSendBackoff attempt)
              else if isTelegram5xxError e.errString then
                (true, telegramSendBackoff attempt)
              else (false, 0)
          | none =>
              if isTelegram5xxError e.errString then
                (true, telegramSendBackoff attempt)
              else (false, 0)

def telegramMaxAttempts : Nat := 3

/-- Number of `SendMessage` calls performed by `Channel.Send`, given the
outcome of each attempt (`results k` is the error of attempt `k`,
1-indexed; `none` is success).  The loop stops on success, on a
non-retryable error, or at `maxAttempts`. -/
def telegramSendAttempts (results : Nat → Option GoErr) (attempt : Nat) : Nat :=
  if _h : telegramMaxAttempts ≤ attempt then 1
  else
    match results attempt with
    | none => 1
    | some e =>
      if (shouldRetryTelegramSend (some e) (attempt : Int)).1 then
        1 + telegramSendAttempts results (attempt + 1)
      else 1
termination_by telegramMaxAttempts - attempt
decreasing_by omega

/-! ### AllowList (`channels/channels.go`) -/

/-- `AllowList.Allowed`: empty list allows all; otherwise exact match, or
any non-empty trimmed part of a compound `"a|b"` id matches. -/
def allowListAllowed (allowFrom : List String) (senderID : String) : Bool :=
  if allowFrom.length = 0 then true
  else
    let senderID := goTrimSpace senderID
    if senderID = "" then false
    else if allowFrom.contains senderID then true
    else if senderID.data.contains '|' then
      (goSplit senderID "|").any fun p =>
        let p := goTrimSpace p
        p ≠ "" && allowFrom.contains p
    else false

/-! ### Slack events endpoint (`channels/slack/slack.go`)

The HTTP layer and the slack-go library are external collaborators;
their observable outcomes (body read success, header verifier
construction, HMAC signature validity, event parse result) are inputs
of the model.  The handler's decision structure is translated from
`EventsHandler`/`handleEvent`. -/

/-- The inner `message` callback event fields used by `handleEvent`. -/
structure SlackMessageEvent where
  botID : String := ""
  subType : String := ""
  user : String := ""
  channel : String := ""
  text : String := ""
deriving DecidableEq, Repr

/-- Parsed Slack event (`slackevents.ParseEvent` result).
`urlVerification none` models a `url_verification` envelope whose data
fails the type assertion or is nil; `callback ty msg` is a callback
envelope with inner event type `ty`; `other` is any other outer type. -/
inductive SlackEvent where
  | urlVerification (challenge : Option String) : SlackEvent
  | callback (innerType : String) (msg : Option SlackMessageEvent) : SlackEvent
  | other (outerType : String) : SlackEvent
deriving DecidableEq, Repr

/-- Inputs of one request to the events endpoint. -/
structure SlackRequest where
  methodPost : Bool
  bodyReadOk : Bool
  verifierOk : Bool
  signatureValid : Bool
  parsed : Option SlackEvent
deriving Repr

/-- The handler's synchronous outcome: HTTP status, body, and the event
handed to the detached `handleEvent` goroutine (if any). -/
structure SlackResponse where
  status : Nat
  body : String
  asyncEvent : Option SlackEvent
deriving DecidableEq, Repr

/-- `Channel.EventsHandler`. -/
def eventsHandler (signingSecret : String) (req : SlackRequest) : SlackResponse :=
  if ¬ req.methodPost then ⟨405, "", none⟩
  else if goTrimSpace signingSecret = "" then
    ⟨500, "slack signingSecret not configured", none⟩
  else if ¬ req.bodyReadOk then ⟨400, "", none⟩
  else if ¬ req.verifierOk then ⟨400, "", none⟩
  else if ¬ req.signatureValid then ⟨403, "", none⟩
  else
    match req.parsed with
    | none => ⟨400, "", none⟩
    | some (.urlVerification none) => ⟨400, "", none⟩
    | some (.urlVerification (some challenge)) => ⟨200, challenge, none⟩
    | some ev => ⟨200, "ok", some ev⟩

/-- `Channel.handleEvent`: the inbound messages published on the bus by
the background processing of one event (zero or one). -/
def slackHandleEvent (allowFrom : List String) : SlackEvent → List InboundMessage
  | .callback "message" (some mev) =>
    if goTrimSpace mev.botID ≠ "" ∨ goTrimSpace mev.subType ≠ "" then []
    else
      let user := goTrimSpace mev.user
      let ch := goTrimSpace mev.channel
      let text := goTrimSpace mev.text
      if user = "" ∨ ch = "" ∨ text = "" then []
      else if ¬ allowListAllowed allowFrom user then []
      else
        [{ channel := "slack", senderID := user, chatID := ch,
           content := text, sessionKey := "slack:" ++ ch }]
  | _ => []

/-- All messages the endpoint publishes for a request: none
synchronously; the background task's output after the ack. -/
def slackPublished (allowFrom : List String) (resp : SlackResponse) :
    List InboundMessage :=
  match resp.asyncEvent with
  | none => []
  | some ev => slackHandleEvent allowFrom ev

/-! ### Web-fetch host policy (`tools/tool_web_fetch.go` helpers) -/

/-- One IPv4 field per Go `net/netip`: 1–3 decimal digits, value ≤ 255,
no leading zero. -/
def ipv4Field (p : String) : Bool :=
  p ≠ "" && decide (p.data.length ≤ 3) &&
  p.data.all (fun c => decide ('0' ≤ c ∧ c ≤ '9')) &&
  !(decide (1 < p.data.length) && p.data.head? == some '0') &&
  decide (p.data.foldl (fun n c => n * 10 + (c.toNat - 48)) 0 ≤ 255)

/-- Go `net.ParseIP` success on a dotted-quad IPv4 literal. -/
def goIsIPv4 (s : String) : Bool :=
  let parts := goSplit s "."
  decide (parts.length = 4) && parts.all ipv4Field

/-- One IPv6 hexadecimal group: 1–4 hex digits. -/
def ipv6HexGroup (p : String) : Bool :=
  p ≠ "" && decide (p.data.length ≤ 4) &&
  p.data.all fun c =>
    decide (('0' ≤ c ∧ c ≤ '9') ∨ ('a' ≤ c ∧ c ≤ 'f') ∨ ('A' ≤ c ∧ c ≤ 'F'))

/-- Group weight of an IPv6 tail: hex groups count one 16-bit field, a
trailing embedded IPv4 literal counts two.  `none` when invalid. -/
def ipv6GroupsWeight (parts : List String) : Option Nat :=
  match parts with
  | [] => some 0
  | [p] =>
    if ipv6HexGroup p then some 1
    else if goIsIPv4 p then some 2
    else none
  | p :: rest =>
    if ipv6HexGroup p then (ipv6GroupsWeight rest).map (· + 1) else none

/-- Go `net.ParseIP` success on an IPv6 literal (`net/netip` rules: at
most one `::` expanding to at least one zero group, eight 16-bit groups
in total, optional trailing embedded IPv4, no zone). -/
def goIsIPv6 (s : String) : Bool :=
  if s.data.contains '%' then false
  else
    match goIndex s "::" with
    | some i =>
      let lft : String := ⟨s.data.take i⟩
      let rgt : String := ⟨s.data.drop (i + 2)⟩
      if goContains rgt "::" then false
      else
        let lparts := if lft = "" then [] else goSplit lft ":"
        let rparts := if rgt = "" then [] else goSplit rgt ":"
        if ¬ lparts.all ipv6HexGroup then false
        else
          match ipv6GroupsWeight rparts with
          | none => false
          | some w => decide (lparts.length + w ≤ 7)
    | none =>
      match ipv6GroupsWeight (goSplit s ":") with
      | none => false
      | some w => decide (w = 8)

/-- Go `net.ParseIP`: dispatch on the first `.` or `:`. -/
def goIsIP (s : String) : Bool :=
  match s.data.find? (fun c => c == '.' || c == ':') with
  | some '.' => goIsIPv4 s
  | some ':' => goIsIPv6 s
  | _ => false

/-- Last index of `c` in `l`. -/
def listLastIdx (c : Char) (l : List Char) : Option Nat :=
  (listLastIdxAux c l 0 none)
where
  listLastIdxAux (c : Char) : List Char → Nat → Option Nat → Option Nat
  | [], _, acc => acc
  | d :: rest, i, acc =>
      listLastIdxAux c rest (i + 1) (if d = c then some i else acc)

/-- First index of `c` in `l`. -/
def listFirstIdx (c : Char) : List Char → Option Nat
  | [] => none
  | d :: rest => if d = c then some 0 else (listFirstIdx c rest).map (· + 1)

/-- Go `net.SplitHostPort`, returning only the host part (`none` on any
of its address errors, in which case the caller keeps the input). -/
def goSplitHostPort (hostport : String) : Option String :=
  let l := hostport.data
  match listLastIdx ':' l with
  | none => none
  | some i =>
    if l.head? = some '[' then
      match listFirstIdx ']' l with
      | none => none
      | some e =>
        if e + 1 = l.length then none
        else if e + 1 = i then
          if (l.drop 1).contains '[' ∨ (l.drop (e + 1)).contains ']' then none
          else some ⟨(l.drop 1).take (e - 1)⟩
        else none
    else
      let host := l.take i
      if host.contains ':' then none
      else if l.contains '[' ∨ l.contains ']' then none
      else some ⟨host⟩

/-- `normalizeFetchHost`. -/
def normalizeFetchHost (raw : String) : String :=
  let h := goTrimSpace raw
  if h = "" then ""
  else
    let h := if goHasPre h "[" && goHasSuf h "]"
             then (⟨(h.data.drop 1).dropLast⟩ : String) else h
    let h := match goSplitHostPort h with
             | some parsedHost => parsedHost
             | none => h
    let h := goTrimPre h "["
    let h := goTrimSuf h "]"
    goToLower (goTrimSuf h ".")

/-- `normalizeDomainPattern`. -/
def normalizeDomainPattern (raw : String) : String :=
  let p := goToLower (goTrimSpace raw)
  if p = "" then ""
  else if p = "*" then p
  else normalizeFetchHost (goTrimPre p ".")

/-- `domainMatchesPattern`. -/
def domainMatchesPattern (host pattern : String) : Bool :=
  let h := normalizeFetchHost host
  let p := normalizeDomainPattern pattern
  if h = "" ∨ p = "" then false
  else if h = p then true
  else if goIsIP h || goIsIP p then false
  else goHasSuf h ("." ++ p)

/-- `allowHostByPolicy`.  A Go nil `allowedDomains` slice (defaulted to
`["*"]`) is distinguished from an empty one by `Option`. -/
def allowHostByPolicy (host : String) (allowedDomains : Option (List String))
    (blockedDomains : List String) : Bool × String :=
  let h := normalizeFetchHost host
  if h = "" then (false, "invalid host")
  else
    let allowed := match allowedDomains with
                   | none => ["*"]
                   | some l => l
    if blockedDomains.any (fun raw =>
        let pattern := normalizeDomainPattern raw
        pattern ≠ "" && domainMatchesPattern h pattern) then
      (false, "host is blocked by policy")
    else if allowed.length = 0 then (false, "no allowed domains configured")
    else if allowed.any (fun raw =>
        let pattern := normalizeDomainPattern raw
        pattern ≠ "" && (pattern == "*" || domainMatchesPattern h pattern)) then
      (true, "")
    else (false, "host is not in allowed domains")

/-- The blocked-domains loop condition of `allowHostByPolicy`: some
pattern of `blockedDomains` normalizes to a non-empty pattern matching
the host. -/
def hostBlocked (host : String) (blockedDomains : List String) : Bool :=
  blockedDomains.any fun raw =>
    let pattern := normalizeDomainPattern raw
    pattern ≠ "" && domainMatchesPattern (normalizeFetchHost host) pattern

/-! ### Regular-expression engine for the exec guard patterns

A simple existence semantics for the RE2 constructs used by
`exec_guard.go`: character predicates, concatenation, alternation,
star, option, the `\b` word boundary and the `^`/`$` anchors.  The
matcher is continuation-passing; a star iteration must consume input,
so unrolling the star `length + 1` times is exhaustive. -/

inductive Re where
  | eps : Re
  | pred (p : Char → Bool) : Re
  | seq (a b : Re) : Re
  | alt (a b : Re) : Re
  | star (a : Re) : Re
  | opt (a : Re) : Re
  | wordB : Re
  | bos : Re
  | eos : Re

/-- RE2 `\w`-style word character `[0-9A-Za-z_]` (used by `\b`). -/
def isWordChar (c : Char) : Bool :=
  decide (('0' ≤ c ∧ c ≤ '9') ∨ ('a' ≤ c ∧ c ≤ 'z') ∨ ('A' ≤ c ∧ c ≤ 'Z') ∨ c = '_')

def optIsWord : Option Char → Bool
  | none => false
  | some c => isWordChar c

def headIsWord : List Char → Bool
  | [] => false
  | c :: _ => isWordChar c

/-- Backtracking matcher, one fuel level: `reRunAux self re prev s k`
tries to match `re` at the start of `s` (with `prev` the character just
before `s`, for the anchors), then continues with `k`; a star iteration
must consume input and recurses through `self` at the next fuel level. -/
def reRunAux (self : Re → Option Char → List Char → (Option Char → List Char → Bool) → Bool) :
    Re → Option Char → List Char → (Option Char → List Char → Bool) → Bool
  | .eps, prev, s, k => k prev s
  | .pred p, _, s, k =>
    match s with
    | [] => false
    | c :: rest => p c && k (some c) rest
  | .seq a b, prev, s, k => reRunAux self a prev s fun p2 s2 => reRunAux self b p2 s2 k
  | .alt a b, prev, s, k => reRunAux self a prev s k || reRunAux self b prev s k
  | .opt a, prev, s, k => reRunAux self a prev s k || k prev s
  | .star a, prev, s, k =>
    k prev s || reRunAux self a prev s fun p2 s2 =>
      decide (s2.length < s.length) && self (.star a) p2 s2 k
  | .wordB, prev, s, k => (optIsWord prev != headIsWord s) && k prev s
  | .bos, prev, s, k => prev.isNone && k prev s
  | .eos, prev, s, k => s.isEmpty && k prev s

/-- Fuel-indexed matcher.  Since every star iteration consumes at least
one character, fuel `length + 1` is exhaustive and the fuel-0 base case
is never reached from `reMatchHere`. -/
def reRunFuel : Nat → Re → Option Char → List Char → (Option Char → List Char → Bool) → Bool
  | 0 => fun _ _ _ _ => false
  | fuel + 1 => reRunAux (reRunFuel fuel)

/-- Does `re` match starting exactly at `s` (with left context `prev`)? -/
def reMatchHere (re : Re) (prev : Option Char) (s : List Char) : Bool :=
  reRunFuel (s.length + 1) re prev s fun _ _ => true

/-- Scan all start positions. -/
def reScan (re : Re) : Option Char → List Char → Bool
  | prev, [] => reMatchHere re prev []
  | prev, c :: rest => reMatchHere re prev (c :: rest) || reScan re (some c) rest

/-- Go `Regexp.MatchString`. -/
def reMatchString (re : Re) (s : String) : Bool :=
  reScan re none s.data

def Re.chr (c : Char) : Re := .pred (· == c)

def Re.strL (s : String) : Re := s.data.foldr (fun c r => .seq (.chr c) r) .eps

def Re.cat (l : List Re) : Re := l.foldr .seq .eps

def Re.oneOf (cs : List Char) : Re := .pred (cs.contains ·)

/-- RE2 `\s` = `[\t\n\f\r ]`. -/
def reSpaceChar (c : Char) : Bool :=
  decide (c = '\t' ∨ c = '\n' ∨ c.toNat = 0x0c ∨ c = '\r' ∨ c = ' ')

def Re.spc : Re := .pred reSpaceChar

def Re.plus (r : Re) : Re := .seq r (.star r)

def lowerLetter (c : Char) : Bool := decide ('a' ≤ c ∧ c ≤ 'z')

def dquoteChar : Char := Char.ofNat 34
def squoteChar : Char := Char.ofNat 39
def backtickChar : Char := Char.ofNat 96
def lbraceChar : Char := Char.ofNat 123
def rbraceChar : Char := Char.ofNat 125

/-! ### Exec guard (`tools/exec_guard.go`) -/

/-- Pattern 1: rm with a recursive flag. -/
def reRmRecursive : Re :=
  .cat [.wordB, .strL "rm", .plus .spc, .chr '-', .star (.pred lowerLetter),
        .chr 'r', .star (.pred lowerLetter), .opt (.chr 'f'),
        .star (.pred lowerLetter), .wordB]

/-- Pattern 2: Windows `del /f`, `del /q`. -/
def reDelFQ : Re :=
  .cat [.wordB, .strL "del", .plus .spc, .chr '/', .oneOf ['f', 'q'], .wordB]

/-- Pattern 3: Windows `rmdir /s`. -/
def reRmdirS : Re :=
  .cat [.wordB, .strL "rmdir", .plus .spc, .strL "/s", .wordB]

/-- Pattern 4: disk operations. -/
def reDiskOps : Re :=
  .cat [.wordB, .alt (.strL "format") (.alt (.strL "mkfs") (.strL "diskpart")), .wordB]

/-- Pattern 5: `dd if=`. -/
def reDdIf : Re := .cat [.wordB, .strL "dd", .plus .spc, .strL "if="]

/-- Pattern 6: write to a raw disk device. -/
def reDevSd : Re := .cat [.chr '>', .star .spc, .strL "/dev/sd"]

/-- Pattern 7: system power commands. -/
def rePower : Re :=
  .cat [.wordB, .alt (.strL "shutdown") (.alt (.strL "reboot") (.strL "poweroff")), .wordB]

/-- Pattern 8: fork bomb (RE2 `.` is any character but newline). -/
def reForkBomb : Re :=
  .cat [.chr ':', .chr '(', .chr ')', .star .spc, .chr lbraceChar,
        .star (.pred fun c => c != '\n'), .chr rbraceChar, .chr ';',
        .star .spc, .chr ':']

def execDenyPatterns : List Re :=
  [reRmRecursive, reDelFQ, reRmdirS, reDiskOps, reDdIf, reDevSd, rePower, reForkBomb]

/-- Does the (lowercased) command match one of the deny regexes? -/
def execDenyMatch (s : String) : Bool :=
  execDenyPatterns.any fun re => reMatchString re s

/-- `reHomeToken` = `(^|\s)~(/|\s|$)`. -/
def reHomeToken : Re :=
  .cat [.alt .bos .spc, .chr '~', .alt (.chr '/') (.alt .spc .eos)]

/-- `containsSingleAmpersand`: a `&` not part of `&&`. -/
def containsSingleAmpAux : Option Char → List Char → Bool
  | _, [] => false
  | prev, c :: rest =>
    if c = '&' then
      (decide (prev ≠ some '&') && decide (rest.head? ≠ some '&')) ||
        containsSingleAmpAux (some c) rest
    else containsSingleAmpAux (some c) rest

def containsSingleAmpersand (s : String) : Bool :=
  containsSingleAmpAux none s.data

/-- `hasToken`: a whitespace-separated field equals `token` or ends in
`"/" + token`. -/
def hasToken (command token : String) : Bool :=
  (goFields command).any fun field => field == token || goHasSuf field ("/" ++ token)

/-- Go `filepath.IsAbs` (POSIX). -/
def goIsAbsPath (p : String) : Bool := p.data.head? == some '/'

/-- Go `filepath.Clean` for POSIX paths: drop empty and `.` components,
resolve `..` lexically (dropping it at a root), keep leading `..` of
relative paths, empty result becomes `.` or `/`. -/
def goPathClean (p : String) : String :=
  if p = "" then "."
  else
    let rooted := p.data.head? = some '/'
    let comps := (goSplit p "/").filter fun c => ¬ (c = "" ∨ c = ".")
    let out := comps.foldl (fun acc c =>
        if c = ".." then
          match acc with
          | [] => if rooted then [] else [".."]
          | a :: rest => if a = ".." then c :: a :: rest else rest
        else c :: acc) []
    let res := String.intercalate "/" out.reverse
    if rooted then "/" ++ res
    else if res = "" then "." else res

/-- Go `filepath.Join` on two elements. -/
def goPathJoin2 (a b : String) : String :=
  if a = "" ∧ b = "" then ""
  else if a = "" then goPathClean b
  else if b = "" then goPathClean a
  else goPathClean (a ++ "/" ++ b)

/-- Go `filepath.Abs` (POSIX), with the working directory explicit. -/
def goAbs (cwd p : String) : String :=
  if goIsAbsPath p then goPathClean p else goPathJoin2 cwd p

/-- `expandHomePath`, with `os.UserHomeDir`'s result explicit (`none`
models an error). -/
def expandHomePath (home : Option String) (path : String) : String :=
  if ¬ goHasPre path "~/" then path
  else
    match home with
    | none => path
    | some h => if goTrimSpace h = "" then path else goPathJoin2 h (goTrimPre path "~/")

def sensitiveDirNames : List String := ["auth", "whatsapp-auth"]

/-- `blockedSensitivePaths`, with the effective config directory explicit
(`none` models the case where neither the config dir nor a home
directory is resolvable, in which case Go returns nil). -/
def blockedSensitivePaths (cfgDir : Option String) : List String :=
  match cfgDir with
  | none => []
  | some d => sensitiveDirNames.map fun n => goPathClean (goPathJoin2 d n)

/-- `isSameOrChildPath`. -/
def isSameOrChildPath (path root : String) : Bool :=
  let path := goPathClean path
  let root := goPathClean root
  path == root || goHasPre path (root ++ "/")

/-- `ensurePathAllowedByPolicy` as a boolean: `true` when the path is
rejected (the root `/` or under a sensitive directory). -/
def pathBlockedByPolicy (cfgDir : Option String) (abs : String) : Bool :=
  let abs := goPathClean abs
  abs == "/" || (blockedSensitivePaths cfgDir).any fun b => isSameOrChildPath abs b

theorem lengthDropWhileLe (p : Char → Bool) (l : List Char) :
    (l.dropWhile p).length ≤ l.length := by
  induction l with
  | nil => simp [List.dropWhile]
  | cons c rest ih =>
    simp only [List.dropWhile]
    split
    · simp only [List.length_cons]; omega
    · simp

/-- Characters allowed inside a POSIX/home path token of the extraction
regexes: `[^ \t\r\n"'` followed by a backtick `]`. -/
def pathRunChar (c : Char) : Bool :=
  decide (¬ (c = ' ' ∨ c = '\t' ∨ c = '\r' ∨ c = '\n' ∨
    c = dquoteChar ∨ c = squoteChar ∨ c = backtickChar))

/-- The left-context class `[\s"'(=,:><]` of `rePosixAbs`. -/
def posixBoundary : Option Char → Bool
  | none => true
  | some c =>
    reSpaceChar c || decide (c = dquoteChar ∨ c = squoteChar ∨ c = '(' ∨
      c = '=' ∨ c = ',' ∨ c = ':' ∨ c = '>' ∨ c = '<')

/-- `rePosixAbs.FindAllStringSubmatch` capture group 2: each `/` at the
start of the string or after a boundary character opens a maximal run
of path characters; scanning resumes after the run (non-overlapping
leftmost matches).  A state machine: `some acc` means a run is being
collected (in reverse); a run-ending character is never `/`, so it can
be passed over. -/
def posixScanGo : Option (List Char) → Option Char → List Char → List (List Char)
  | some acc, _, [] => [acc.reverse]
  | some acc, _, c :: rest =>
    if pathRunChar c then posixScanGo (some (c :: acc)) (some c) rest
    else acc.reverse :: posixScanGo none (some c) rest
  | none, _, [] => []
  | none, prev, c :: rest =>
    if c = '/' ∧ posixBoundary prev then posixScanGo (some [c]) (some c) rest
    else posixScanGo none (some c) rest

def posixScan (prev : Option Char) (l : List Char) : List (List Char) :=
  posixScanGo none prev l

/-- `reHomeAbs.FindAllString`: occurrences of `~/` followed by at least
one path character.  A run-ending character is never `~`, so it can be
passed over. -/
def homeScanGo : Option (List Char) → List Char → List (List Char)
  | some acc, [] => [acc.reverse]
  | some acc, c :: rest =>
    if pathRunChar c then homeScanGo (some (c :: acc)) rest
    else acc.reverse :: homeScanGo none rest
  | none, [] => []
  | none, '~' :: '/' :: c2 :: rest2 =>
    if pathRunChar c2 then homeScanGo (some [c2, '/', '~']) rest2
    else homeScanGo none ('/' :: c2 :: rest2)
  | none, _ :: rest => homeScanGo none rest

def homeScan (l : List Char) : List (List Char) :=
  homeScanGo none l

def asciiLetter (c : Char) : Bool :=
  decide (('a' ≤ c ∧ c ≤ 'z') ∨ ('A' ≤ c ∧ c ≤ 'Z'))

/-- Characters of a Windows path run: `[^\\"'\s]`. -/
def winRunChar (c : Char) : Bool :=
  decide (¬ (c = '\\' ∨ c = dquoteChar ∨ c = squoteChar)) && !reSpaceChar c

/-- `reWinAbs.FindAllString`: `[A-Za-z]:\` followed by at least one run
character.  A run-ending character is never a letter, so it can be
passed over. -/
def winScanGo : Option (List Char) → List Char → List (List Char)
  | some acc, [] => [acc.reverse]
  | some acc, c :: rest =>
    if winRunChar c then winScanGo (some (c :: acc)) rest
    else acc.reverse :: winScanGo none rest
  | none, [] => []
  | none, c :: ':' :: '\\' :: c2 :: rest2 =>
    if asciiLetter c then
      if winRunChar c2 then winScanGo (some [c2, '\\', ':', c]) rest2
      else winScanGo none (':' :: '\\' :: c2 :: rest2)
    else winScanGo none (':' :: '\\' :: c2 :: rest2)
  | none, _ :: rest => winScanGo none rest

def winScan (l : List Char) : List (List Char) :=
  winScanGo none l

/-- The absolute-path tokens extracted from a command:
Windows paths, then POSIX paths, then `~/` paths. -/
def extractCommandPaths (cmd : String) : List String :=
  (winScan cmd.data ++ posixScan none cmd.data ++ homeScan cmd.data).map
    fun l => (⟨l⟩ : String)

/-- Environment observations used by the guard. -/
structure ExecEnv where
  cfgDir : Option String
  home : Option String
  cwd : String

def msgExpansion : String :=
  "Error: Command blocked by safety guard (unsafe shell expansion detected)"
def msgChaining : String :=
  "Error: Command blocked by safety guard (command chaining detected)"
def msgRedirection : String :=
  "Error: Command blocked by safety guard (redirection is not allowed)"
def msgBackground : String :=
  "Error: Command blocked by safety guard (background chaining detected)"
def msgTee : String :=
  "Error: Command blocked by safety guard (tee is not allowed)"
def msgDanger : String :=
  "Error: Command blocked by safety guard (dangerous pattern detected)"
def msgTraversal : String :=
  "Error: Command blocked by safety guard (path traversal detected)"
def msgOutside : String :=
  "Error: Command blocked by safety guard (path outside workspace)"
def msgSensitive : String :=
  "Error: Command blocked by safety guard (sensitive path is not allowed)"

/-- The `isWithin` closure of `guardExecCommand`. -/
def guardIsWithin (wsAbs p : String) : Bool :=
  let p := goPathClean p
  p == wsAbs || goHasPre p (wsAbs ++ "/")

/-- The per-path loop at the end of `guardExecCommand`.
`wsAbs` is the cleaned absolute workspace directory. -/
def guardPathsLoop (env : ExecEnv) (restrict : Bool) (wsAbs : String) :
    List String → String
  | [] => ""
  | raw :: rest =>
    let raw := goTrimSpace raw
    if raw = "" then guardPathsLoop env restrict wsAbs rest
    else
      let raw := expandHomePath env.home raw
      if pathBlockedByPolicy env.cfgDir raw then msgSensitive
      else if ¬ restrict then guardPathsLoop env restrict wsAbs rest
      else if guardIsWithin wsAbs raw then guardPathsLoop env restrict wsAbs rest
      else msgOutside

/-- `guardExecCommand`. -/
def guardExecCommand (env : ExecEnv) (command workspaceDir : String)
    (restrict : Bool) : String :=
  let cmd := goTrimSpace command
  if cmd = "" then ""
  else
    let lower := goToLower cmd
    if goContains cmd (String.mk [backtickChar]) ||
       goContains cmd "$(" ||
       goContains cmd (String.mk ['$', lbraceChar]) ||
       goContains cmd "<(" ||
       goContains cmd ">(" then msgExpansion
    else if goContains cmd ";" || goContains cmd "\n" then msgChaining
    else if goContains cmd ">" then msgRedirection
    else if containsSingleAmpersand cmd then msgBackground
    else if hasToken cmd "tee" then msgTee
    else if execDenyMatch lower then msgDanger
    else if restrict && (goContains cmd "../" || goContains cmd "..\\") then
      msgTraversal
    else if restrict && reMatchString reHomeToken cmd then msgOutside
    else
      let wsAbs := goPathClean (goAbs env.cwd workspaceDir)
      guardPathsLoop env restrict wsAbs (extractCommandPaths cmd)

/-! ### Specification-side definitions and witness fixtures -/

/-- Spec wording for the Telegram reply target: the first candidate that
parses (as int64) to a positive number; 0 when none does. -/
def firstPositiveInt64 : List String → Int
  | [] => 0
  | c :: rest =>
    match goParseInt64 c with
    | some n => if 0 < n then n else firstPositiveInt64 rest
    | none => firstPositiveInt64 rest

/-- Spec wording of C9: consider the structured `delivery.replyToID`
first and the legacy `replyTo` second. -/
def replyTargetSpec (msg : OutboundMessage) : Int :=
  firstPositiveInt64 [goTrimSpace msg.delivery.replyToID, goTrimSpace msg.replyTo]

/-- Messages used by concrete witnesses. -/
def sampleMessages : List Message :=
  [{ role := "user", content := "one", timestamp := "t1", toolsUsed := [] },
   { role := "assistant", content := "two", timestamp := "t2", toolsUsed := ["exec"] },
   { role := "user", content := "three", timestamp := "t3", toolsUsed := [] }]

/-- A session mid-life, used by concrete witnesses. -/
def sampleSession : Session :=
  { messages := sampleMessages, persistedMessages := 1, appendSaves := 2,
    metadataLineCount := 3, needsCompaction := false, version := 5 }

/-- A sample environment for exec-guard witnesses. -/
def sampleEnv : ExecEnv :=
  { cfgDir := some "/home/u/.clawlet", home := some "/home/u", cwd := "/home/u/ws" }

/-! ## Shared lemmas on trimming -/

theorem head?_dropWhile_not (p : Char → Bool) (l : List Char) (c : Char)
    (h : (l.dropWhile p).head? = some c) : p c = false := by
  induction l with
  | nil => simp [List.dropWhile] at h
  | cons a rest ih =>
    simp only [List.dropWhile] at h
    by_cases hp : p a
    · exact ih (by simpa [hp] using h)
    · simp only [hp] at h
      simp only [List.head?] at h
      cases h
      simpa using hp

theorem dropWhile_eq_self_of_head (p : Char → Bool) (l : List Char)
    (h : ∀ c, l.head? = some c → p c = false) : l.dropWhile p = l := by
  cases l with
  | nil => simp [List.dropWhile]
  | cons a rest =>
    have := h a (by simp)
    simp [List.dropWhile, this]

theorem dropWhile_dropWhile (p : Char → Bool) (l : List Char) :
    (l.dropWhile p).dropWhile p = l.dropWhile p := by
  refine dropWhile_eq_self_of_head p _ fun c hc => ?_
  exact head?_dropWhile_not p l c hc

theorem getLast?_dropWhile (p : Char → Bool) (l : List Char)
    (h : l.dropWhile p ≠ []) : (l.dropWhile p).getLast? = l.getLast? := by
  induction l with
  | nil => simp [List.dropWhile] at h
  | cons a rest ih =>
    by_cases hp : p a
    · have hd : (a :: rest).dropWhile p = rest.dropWhile p := by
        simp [List.dropWhile, hp]
      rw [hd] at h ⊢
      have hrest : rest ≠ [] := by
        intro he
        rw [he] at h
        simp [List.dropWhile] at h
      rw [ih h]
      cases rest with
      | nil => exact absurd rfl hrest
      | cons b bs => simp [List.getLast?_cons_cons]
    · simp [List.dropWhile, hp]

/-- The two-sided trim leaves a list whose boundary characters fail `p`,
and it is idempotent. -/
theorem listTrim_head_not (p : Char → Bool) (l : List Char) (c : Char)
    (h : (listTrim p l).head? = some c) : p c = false := by
  unfold listTrim at h
  rw [List.head?_reverse] at h
  set b := (l.dropWhile p).reverse with hb
  have hne : b.dropWhile p ≠ [] := by
    intro he
    rw [he] at h
    simp at h
  rw [getLast?_dropWhile p b hne] at h
  rw [hb, List.getLast?_reverse] at h
  exact head?_dropWhile_not p l c h

theorem listTrim_getLast_not (p : Char → Bool) (l : List Char) (c : Char)
    (h : (listTrim p l).getLast? = some c) : p c = false := by
  unfold listTrim at h
  rw [List.getLast?_reverse] at h
  exact head?_dropWhile_not p _ c h

theorem listTrim_idem (p : Char → Bool) (l : List Char) :
    listTrim p (listTrim p l) = listTrim p l := by
  have h1 : (listTrim p l).dropWhile p = listTrim p l := by
    refine dropWhile_eq_self_of_head p _ fun c hc => listTrim_head_not p l c hc
  unfold listTrim
  rw [show listTrim p l = ((l.dropWhile p).reverse.dropWhile p).reverse from rfl] at h1
  rw [h1, List.reverse_reverse, dropWhile_dropWhile]

theorem listTrim_subset (p : Char → Bool) (l : List Char) :
    ∀ c ∈ listTrim p l, c ∈ l := by
  intro c hc
  unfold listTrim at hc
  rw [List.mem_reverse] at hc
  have h1 := (List.dropWhile_sublist (l := (l.dropWhile p).reverse) p).subset hc
  rw [List.mem_reverse] at h1
  exact (List.dropWhile_sublist (l := l) p).subset h1

theorem listTrim_eq_self (p : Char → Bool) (l : List Char)
    (h : ∀ c ∈ l, p c = false) : listTrim p l = l := by
  unfold listTrim
  have h1 : l.dropWhile p = l :=
    dropWhile_eq_self_of_head p l fun c hc => h c (List.mem_of_mem_head? hc)
  rw [h1]
  have h2 : l.reverse.dropWhile p = l.reverse :=
    dropWhile_eq_self_of_head p l.reverse fun c hc =>
      h c (by simpa using List.mem_of_mem_head? hc)
  rw [h2, List.reverse_reverse]

/-- Trimming is idempotent as a `String` operation. -/
theorem goTrimSpace_idem (s : String) :
    goTrimSpace (goTrimSpace s) = goTrimSpace s := by
  unfold goTrimSpace
  exact congrArg String.mk (listTrim_idem goIsSpace s.data)

/-! ## Claims -/

/-- **C1.** `ApplyConsolidation(ver, keep)` with the captured version and
`0 ≤ keep <` message count returns true, keeps exactly the last `keep`
messages (the pre-call tail), strictly increases the version and sets
`needsCompaction`; with a mismatched version it is a no-op returning
false. -/
theorem C1_applyConsolidation_spec (s : Session) (ver : Nat) (keep : Int)
    (hkeep : 0 ≤ keep) :
    (ver = s.version → keep < (s.messages.length : Int) →
      (s.applyConsolidation ver keep).1 = true ∧
      ((s.applyConsolidation ver keep).2.messages.length : Int) = keep ∧
      (s.applyConsolidation ver keep).2.messages
        = s.messages.drop (s.messages.length - keep.toNat) ∧
      (s.applyConsolidation ver keep).2.version = s.version + 1 ∧
      s.version < (s.applyConsolidation ver keep).2.version ∧
      (s.applyConsolidation ver keep).2.needsCompaction = true) ∧
    (ver ≠ s.version → s.applyConsolidation ver keep = (false, s)) := by
  constructor
  · intro hv hlt
    have hne : ¬ s.version ≠ ver := by omega
    have hcond : ¬ (keep < 0 ∨ (s.messages.length : Int) ≤ keep) := by omega
    simp only [Session.applyConsolidation, if_neg hne, if_neg hcond, List.length_drop]
    exact ⟨by trivial, by omega, by trivial, by trivial, by omega, by trivial⟩
  · intro hv
    have hne : s.version ≠ ver := fun h => hv h.symm
    simp [Session.applyConsolidation, if_pos hne]

/-- Witness for C1 at a concrete session. -/
theorem C1_witness :
    (5 = sampleSession.version ∧ (1 : Int) < sampleSession.messages.length ∧
      (sampleSession.applyConsolidation 5 1).1 = true ∧
      (sampleSession.applyConsolidation 5 1).2.messages
        = [{ role := "user", content := "three", timestamp := "t3", toolsUsed := [] }] ∧
      (sampleSession.applyConsolidation 5 1).2.version = 6) ∧
    sampleSession.applyConsolidation 4 1 = (false, sampleSession) := by
  refine ⟨⟨rfl, by decide, ?_, by decide, ?_⟩, ?_⟩
  · exact ((C1_applyConsolidation_spec sampleSession 5 1 (by decide)).1 rfl (by decide)).1
  · exact ((C1_applyConsolidation_spec sampleSession 5 1 (by decide)).1 rfl (by decide)).2.2.2.1
  · exact (C1_applyConsolidation_spec sampleSession 4 1 (by decide)).2 (by decide)

/-- **C5.** The version counter strictly increases on every mutating
session operation: every `Add`/`AddWithTools` append increments it, every
successful `ApplyConsolidation` (a truncation) increments it, and a
failed `ApplyConsolidation` mutates nothing at all.  (The store exposes
no metadata-changing operation; `Save` only updates persistence
bookkeeping and never touches `version`.) -/
theorem C5_version_strictly_increases :
    (∀ (s : Session) (role content ts : String) (tools : List String),
      (s.addWithTools role content ts tools).version = s.version + 1 ∧
      s.version < (s.addWithTools role content ts tools).version) ∧
    (∀ (s : Session) (ver : Nat) (keep : Int),
      (s.applyConsolidation ver keep).1 = true →
        (s.applyConsolidation ver keep).2.version = s.version + 1 ∧
        s.version < (s.applyConsolidation ver keep).2.version) ∧
    (∀ (s : Session) (ver : Nat) (keep : Int),
      (s.applyConsolidation ver keep).1 = false →
        (s.applyConsolidation ver keep).2 = s) ∧
    (∀ (meta : MetadataLine) (sizeBig : Bool) (s : Session) (f : List Line),
      (sessionSave meta sizeBig s f).1.version = s.version) := by
  refine ⟨fun s role content ts tools => ⟨rfl, by simp [Session.addWithTools]⟩,
    fun s ver keep h => ?_, fun s ver keep h => ?_, fun meta sizeBig s f => ?_⟩
  · unfold Session.applyConsolidation at h ⊢
    by_cases h1 : s.version ≠ ver
    · simp [if_pos h1] at h
    · by_cases h2 : keep < 0 ∨ (s.messages.length : Int) ≤ keep
      · simp [if_neg h1, if_pos h2] at h
      · simp only [if_neg h1, if_neg h2]
        exact ⟨by trivial, by omega⟩
  · unfold Session.applyConsolidation at h ⊢
    by_cases h1 : s.version ≠ ver
    · simp [if_pos h1]
    · by_cases h2 : keep < 0 ∨ (s.messages.length : Int) ≤ keep
      · simp [if_neg h1, if_pos h2]
      · simp [if_neg h1, if_neg h2] at h
  · unfold sessionSave
    dsimp only
    split_ifs <;> rfl

/-- Witness for C5 at concrete inputs. -/
theorem C5_witness :
    (sampleSession.addWithTools "user" "hi" "t4" []).version = 6 ∧
    (sampleSession.applyConsolidation 5 2).1 = true ∧
    (sampleSession.applyConsolidation 5 2).2.version = 6 ∧
    (sampleSession.applyConsolidation 9 2).1 = false ∧
    (sampleSession.applyConsolidation 9 2).2 = sampleSession := by
  refine ⟨(C5_version_strictly_increases.1 sampleSession "user" "hi" "t4" []).1, by decide,
    (C5_version_strictly_increases.2.1 sampleSession 5 2 (by decide)).1, by decide,
    C5_version_strictly_increases.2.2.1 sampleSession 9 2 (by decide)⟩

/-- **C6 counterexample.** `AddWithTools` does not deduplicate: storing
`["exec", "exec"]` records the name twice. -/
theorem C6_counterexample :
    ((Session.new.addWithTools "assistant" "done" "t0" ["exec", "exec"]).messages.map
      Message.toolsUsed) = [["exec", "exec"]] ∧
    ¬ (["exec", "exec"] : List String).Nodup := by
  exact ⟨by decide, by decide⟩

/-- **C6 (amended).** The `toolsUsed` list stored by `AddWithTools`
consists of the input names trimmed, with names that trim to empty
dropped (duplicates are preserved): every stored name is non-empty and
unchanged by further whitespace trimming. -/
theorem C6_addWithTools_toolsUsed (s : Session) (role content ts : String)
    (tools : List String) :
    (s.addWithTools role content ts tools).messages
      = s.messages ++ [{ role := role, content := content, timestamp := ts,
                         toolsUsed := cleanToolsUsed tools }] ∧
    ∀ name ∈ cleanToolsUsed tools, name ≠ "" ∧ goTrimSpace name = name := by
  refine ⟨rfl, fun name hname => ?_⟩
  unfold cleanToolsUsed at hname
  rw [List.mem_filter] at hname
  obtain ⟨hmem, hne⟩ := hname
  rw [List.mem_map] at hmem
  obtain ⟨orig, -, rfl⟩ := hmem
  exact ⟨by simpa using hne, goTrimSpace_idem orig⟩

/-- Witness for C6 (amended) at a concrete input. -/
theorem C6_witness :
    "exec" ∈ cleanToolsUsed ["  exec ", "", "exec"] ∧
    ("exec" : String) ≠ "" ∧ goTrimSpace "exec" = "exec" := by
  refine ⟨by decide, ?_⟩
  exact (C6_addWithTools_toolsUsed Session.new "a" "c" "t" ["  exec ", "", "exec"]).2
    "exec" (by decide)

/-- **C9.** The Telegram reply target prefers the structured
`delivery.replyToID` over the legacy `replyTo`, returning the first
candidate that parses as a positive int64 and 0 otherwise; in
particular `{ReplyTo:"12", Delivery.ReplyToID:"34"}` resolves to 34,
`{ReplyTo:"56"}` to 56 and `{ReplyTo:"abc", Delivery.ReplyToID:"def"}`
to 0. -/
theorem C9_resolveTelegramReplyTarget :
    (∀ msg : OutboundMessage, resolveTelegramReplyTarget msg = replyTargetSpec msg) ∧
    resolveTelegramReplyTarget { replyTo := "12", delivery := { replyToID := "34" } } = 34 ∧
    resolveTelegramReplyTarget { replyTo := "56" } = 56 ∧
    resolveTelegramReplyTarget { replyTo := "abc", delivery := { replyToID := "def" } } = 0 := by
  refine ⟨fun msg => ?_, by decide, by decide, by decide⟩
  have go_eq : ∀ l : List String, resolveTelegramReplyTarget.go l = firstPositiveInt64 l := by
    intro l
    induction l with
    | nil => rfl
    | cons c rest ih =>
      by_cases hc : c = ""
      · subst hc
        simp [resolveTelegramReplyTarget.go, firstPositiveInt64, goParseInt64, ih]
      · unfold resolveTelegramReplyTarget.go firstPositiveInt64
        simp only [if_neg hc]
        cases goParseInt64 c with
        | none => exact ih
        | some n =>
          by_cases hn : 0 < n
          · simp [hn]
          · simp [hn, ih]
  exact go_eq _

/-! ### C10: safeFilename -/

theorem safeFilenameChar_not_space (c : Char) (h : safeFilenameChar c = true) :
    goIsSpace c = false := by
  rw [safeFilenameChar, decide_eq_true_iff] at h
  rw [goIsSpace, decide_eq_false_iff_not]
  omega

theorem mem_collapseUnsafe_safe (l : List Char) :
    ∀ (b : Bool), ∀ c ∈ collapseUnsafe b l, safeFilenameChar c = true := by
  induction l with
  | nil => intro b c hc; simp [collapseUnsafe] at hc
  | cons a rest ih =>
    intro b c hc
    unfold collapseUnsafe at hc
    by_cases hs : safeFilenameChar a
    · rw [if_pos hs] at hc
      rcases List.mem_cons.mp hc with rfl | h2
      · exact hs
      · exact ih false c h2
    · rw [if_neg hs] at hc
      cases b with
      | true => exact ih true c (by simpa using hc)
      | false =>
        rcases List.mem_cons.mp (by simpa using hc) with rfl | h2
        · decide
        · exact ih true c h2

theorem collapseUnsafe_all_safe (l : List Char)
    (h : ∀ c ∈ l, safeFilenameChar c = true) :
    ∀ b, collapseUnsafe b l = l := by
  induction l with
  | nil => intro b; rfl
  | cons a rest ih =>
    intro b
    have hs : safeFilenameChar a = true := h a (by simp)
    unfold collapseUnsafe
    rw [if_pos hs, ih fun c hc => h c (List.mem_cons_of_mem a hc)]

theorem string_mk_data (s : String) : (⟨s.data⟩ : String) = s := rfl

/-- Every character of a non-default `safeFilename` result is in the
safe class. -/
theorem safeFilename_chars (s : String) :
    ∀ c ∈ (goTrimCutset ['.', '_', '-']
      (⟨collapseUnsafe false (goTrimSpace s).data⟩ : String)).data,
      safeFilenameChar c = true := by
  intro c hc
  unfold goTrimCutset at hc
  have h2 := listTrim_subset _ _ c hc
  exact mem_collapseUnsafe_safe _ false c h2

theorem safeFilename_fixed (r : String)
    (hsafe : ∀ c ∈ r.data, safeFilenameChar c = true)
    (htrim : listTrim (['.', '_', '-'].contains ·) r.data = r.data)
    (hne : r ≠ "") :
    safeFilename r = r := by
  have hspace : goTrimSpace r = r := by
    unfold goTrimSpace
    rw [listTrim_eq_self goIsSpace r.data fun c hc => safeFilenameChar_not_space c (hsafe c hc)]
  have hcol : collapseUnsafe false r.data = r.data :=
    collapseUnsafe_all_safe r.data hsafe false
  have hcut : goTrimCutset ['.', '_', '-'] (⟨r.data⟩ : String) = r := by
    unfold goTrimCutset
    rw [htrim]
  unfold safeFilename
  rw [hspace, if_neg hne, hcol, hcut, if_neg hne]

/-- **C10.** `safeFilename` is idempotent, and its result is either
`"default"` or a non-empty name of characters in `[A-Za-z0-9._-]` with
no leading or trailing `.`, `_` or `-` — so a session key sanitised
once is stored and re-loaded under the same file name. -/
theorem C10_safeFilename_idempotent (s : String) :
    safeFilename (safeFilename s) = safeFilename s ∧
    (safeFilename s = "default" ∨
      ((∀ c ∈ (safeFilename s).data, safeFilenameChar c = true) ∧
       (∀ c, (safeFilename s).data.head? = some c →
          (['.', '_', '-'] : List Char).contains c = false) ∧
       (∀ c, (safeFilename s).data.getLast? = some c →
          (['.', '_', '-'] : List Char).contains c = false) ∧
       safeFilename s ≠ "")) := by
  by_cases h1 : goTrimSpace s = ""
  · have hd : safeFilename s = "default" := by
      unfold safeFilename
      rw [if_pos h1]
    rw [hd]
    exact ⟨by decide, Or.inl rfl⟩
  · set r := goTrimCutset ['.', '_', '-']
      (⟨collapseUnsafe false (goTrimSpace s).data⟩ : String) with hr
    by_cases h2 : r = ""
    · have hd : safeFilename s = "default" := by
        unfold safeFilename
        rw [if_neg h1, ← hr, if_pos h2]
      rw [hd]
      exact ⟨by decide, Or.inl rfl⟩
    · have hd : safeFilename s = r := by
        unfold safeFilename
        rw [if_neg h1, ← hr, if_neg h2]
      have hsafe : ∀ c ∈ r.data, safeFilenameChar c = true := safeFilename_chars s
      have htrim : listTrim (['.', '_', '-'].contains ·) r.data = r.data := by
        rw [hr]
        unfold goTrimCutset
        exact listTrim_idem _ _
      rw [hd]
      refine ⟨safeFilename_fixed r hsafe htrim h2, Or.inr ⟨hsafe, ?_, ?_, h2⟩⟩
      · intro c hc
        have : r.data.head? = some c := hc
        rw [hr] at this
        exact listTrim_head_not _ _ c this
      · intro c hc
        have : r.data.getLast? = some c := hc
        rw [hr] at this
        exact listTrim_getLast_not _ _ c this

/-- Witness for C10 at concrete keys. -/
theorem C10_witness :
    safeFilename (safeFilename "  slack:C1/..x  ") = safeFilename "  slack:C1/..x  " ∧
    (safeFilename "x.y").data.head? = some 'x' ∧
    (['.', '_', '-'] : List Char).contains 'x' = false := by
  refine ⟨(C10_safeFilename_idempotent "  slack:C1/..x  ").1, by decide, ?_⟩
  have h := (C10_safeFilename_idempotent "x.y").2
  have h2 := h.resolve_left (by decide)
  exact h2.2.1 'x' (by decide)

/-! ### C4: web-fetch host policy -/

/-- **C4 counterexample.** With `allowed = ["*"]` and an empty blocked
list, the empty host is not blocked yet is denied ("invalid host"), so
"with `A=["*"]` it allows iff h is not blocked" fails for hosts whose
normalized form is empty. -/
theorem C4_counterexample :
    hostBlocked "" [] = false ∧
    (allowHostByPolicy "" (some ["*"]) []).1 = false := by
  exact ⟨by decide, by decide⟩

theorem allowHost_blocked_denies (host : String) (A : Option (List String))
    (B : List String) (hB : hostBlocked host B = true) :
    (allowHostByPolicy host A B).1 = false := by
  have hB' : (B.any fun raw =>
      decide (normalizeDomainPattern raw ≠ "") &&
        domainMatchesPattern (normalizeFetchHost host) (normalizeDomainPattern raw))
      = true := hB
  unfold allowHostByPolicy
  by_cases hh : normalizeFetchHost host = ""
  · rw [if_pos hh]
  · rw [if_neg hh]
    dsimp only
    rw [if_pos hB']

theorem allowHost_star_allows (host : String) (B : List String)
    (hh : normalizeFetchHost host ≠ "") (hB : hostBlocked host B = false) :
    (allowHostByPolicy host (some ["*"]) B).1 = true := by
  have hB' : ¬ (B.any fun raw =>
      decide (normalizeDomainPattern raw ≠ "") &&
        domainMatchesPattern (normalizeFetchHost host) (normalizeDomainPattern raw))
      = true := by
    intro hcon
    exact absurd (show hostBlocked host B = true from hcon) (by simp [hB])
  unfold allowHostByPolicy
  rw [if_neg hh]
  dsimp only
  rw [if_neg hB']
  have hlen : ¬ (["*"] : List String).length = 0 := by decide
  rw [if_neg hlen]
  have hstar : normalizeDomainPattern "*" = "*" := by decide
  have hany : ((["*"] : List String).any fun raw =>
      decide (normalizeDomainPattern raw ≠ "") &&
        (normalizeDomainPattern raw == "*" ||
          domainMatchesPattern (normalizeFetchHost host) (normalizeDomainPattern raw)))
      = true := by
    simp [List.any, hstar]
  rw [if_pos hany]

/-- **C4 (amended).** Blocked patterns win over any allowed list; for a
host with a non-empty normalized form, `allowed = ["*"]` allows exactly
the non-blocked hosts; an empty (non-nil) allowed list always denies;
and a non-empty normalized host matches a non-empty normalized
non-`*` pattern iff it equals it, or neither is an IP and the host ends
in `"." + pattern` — in particular `"api.example.com"` matches
`"example.com"` but not `"other.com"`.  (Hosts normalizing to empty are
always denied as invalid.) -/
theorem C4_allowHostByPolicy_spec :
    (∀ (host : String) (A : Option (List String)) (B : List String),
      hostBlocked host B = true → (allowHostByPolicy host A B).1 = false) ∧
    (∀ (host : String) (B : List String), normalizeFetchHost host ≠ "" →
      (allowHostByPolicy host (some ["*"]) B).1 = !hostBlocked host B) ∧
    (∀ (host : String) (B : List String),
      (allowHostByPolicy host (some []) B).1 = false) ∧
    (domainMatchesPattern "api.example.com" "example.com" = true ∧
     domainMatchesPattern "api.example.com" "other.com" = false) ∧
    (∀ h p : String, normalizeFetchHost h = h → normalizeDomainPattern p = p →
      h ≠ "" → p ≠ "" →
      (domainMatchesPattern h p = true ↔
        (h = p ∨ (goIsIP h = false ∧ goIsIP p = false ∧
          goHasSuf h ("." ++ p) = true)))) := by
  refine ⟨allowHost_blocked_denies, ?_, ?_, ⟨by decide, by decide⟩, ?_⟩
  · intro host B hh
    cases hB : hostBlocked host B with
    | true => rw [allowHost_blocked_denies host (some ["*"]) B hB]; rfl
    | false => rw [allowHost_star_allows host B hh hB]; rfl
  · intro host B
    unfold allowHostByPolicy
    by_cases hh : normalizeFetchHost host = ""
    · rw [if_pos hh]
    · rw [if_neg hh]
      dsimp only
      by_cases hB : (B.any fun raw =>
          decide (normalizeDomainPattern raw ≠ "") &&
            domainMatchesPattern (normalizeFetchHost host) (normalizeDomainPattern raw))
          = true
      · rw [if_pos hB]
      · rw [if_neg hB]
        rw [if_pos (by decide : (([] : List String)).length = 0)]
  · intro h p hh hp hne hpe
    unfold domainMatchesPattern
    rw [hh, hp]
    rw [if_neg (by exact fun hcon => hcon.elim hne hpe)]
    by_cases heq : h = p
    · rw [if_pos heq]
      simp [heq]
    · rw [if_neg heq]
      by_cases hip : (goIsIP h || goIsIP p) = true
      · rw [if_pos hip]
        rcases Bool.or_eq_true _ _ |>.mp hip with h1 | h1 <;>
          simp [heq, h1]
      · rw [if_neg hip]
        rw [Bool.or_eq_true] at hip
        push_neg at hip
        rcases hip with ⟨h1, h2⟩
        simp only [ne_eq, Bool.not_eq_true] at h1 h2
        simp [heq, h1, h2]

/-- Witness for C4 at concrete inputs. -/
theorem C4_witness :
    hostBlocked "api.example.com" ["example.com"] = true ∧
    (allowHostByPolicy "api.example.com" (some ["*"]) ["example.com"]).1 = false ∧
    normalizeFetchHost "api.example.com" ≠ "" ∧
    (allowHostByPolicy "api.example.com" (some ["*"]) []).1 = true := by
  refine ⟨by decide, ?_, by decide, ?_⟩
  · exact C4_allowHostByPolicy_spec.1 "api.example.com" (some ["*"]) ["example.com"]
      (by decide)
  · have h := C4_allowHostByPolicy_spec.2.1 "api.example.com" [] (by decide)
    rw [h]
    decide

/-! ### C7: Slack events handler -/

/-- **C7.** With the signing secret configured and the request
well-formed up to signature checking: a POST whose signature fails HMAC
verification is answered 403 and publishes nothing; a valid
`url_verification` event with challenge `ch` is answered 200 with
plain-text body `ch` (and nothing is processed); every other
successfully parsed event is answered 200 `"ok"`, with the event handed
to the detached background handler — the response is fixed before (and
independently of) that processing. -/
theorem C7_eventsHandler_spec (secret : String) (req : SlackRequest)
    (allowFrom : List String) (hpost : req.methodPost = true)
    (hsecret : goTrimSpace secret ≠ "") (hbody : req.bodyReadOk = true)
    (hver : req.verifierOk = true) :
    (req.signatureValid = false →
      (eventsHandler secret req).status = 403 ∧
      (eventsHandler secret req).asyncEvent = none ∧
      slackPublished allowFrom (eventsHandler secret req) = []) ∧
    (∀ ch, req.signatureValid = true →
      req.parsed = some (.urlVerification (some ch)) →
      eventsHandler secret req = ⟨200, ch, none⟩) ∧
    (∀ ev, req.signatureValid = true → req.parsed = some ev →
      (∀ c, ev ≠ .urlVerification c) →
      eventsHandler secret req = ⟨200, "ok", some ev⟩) := by
  refine ⟨fun hsig => ?_, fun ch hsig hparse => ?_, fun ev hsig hparse hne => ?_⟩
  · have hd : eventsHandler secret req = ⟨403, "", none⟩ := by
      unfold eventsHandler
      rw [if_neg (by simp [hpost]), if_neg (by simp [hsecret]),
        if_neg (by simp [hbody]), if_neg (by simp [hver]),
        if_pos (by simp [hsig])]
    rw [hd]
    exact ⟨rfl, rfl, rfl⟩
  · unfold eventsHandler
    rw [if_neg (by simp [hpost]), if_neg (by simp [hsecret]),
      if_neg (by simp [hbody]), if_neg (by simp [hver]),
      if_neg (by simp [hsig]), hparse]
  · unfold eventsHandler
    rw [if_neg (by simp [hpost]), if_neg (by simp [hsecret]),
      if_neg (by simp [hbody]), if_neg (by simp [hver]),
      if_neg (by simp [hsig]), hparse]
    cases ev with
    | urlVerification c => exact absurd rfl (hne c)
    | callback ty msg => rfl
    | other ty => rfl

/-- Witness for C7 at concrete requests. -/
theorem C7_witness :
    (eventsHandler "s3cret"
      { methodPost := true, bodyReadOk := true, verifierOk := true,
        signatureValid := false,
        parsed := some (.callback "message" none) }).status = 403 ∧
    eventsHandler "s3cret"
      { methodPost := true, bodyReadOk := true, verifierOk := true,
        signatureValid := true,
        parsed := some (.urlVerification (some "xyz")) } = ⟨200, "xyz", none⟩ ∧
    eventsHandler "s3cret"
      { methodPost := true, bodyReadOk := true, verifierOk := true,
        signatureValid := true,
        parsed := some (.callback "message" (some
          { user := "U1", channel := "C1", text := "hi" })) }
      = ⟨200, "ok", some (.callback "message" (some
          { user := "U1", channel := "C1", text := "hi" }))⟩ := by
  refine ⟨?_, ?_, ?_⟩
  · exact ((C7_eventsHandler_spec "s3cret" _ [] rfl (by decide) rfl rfl).1 rfl).1
  · exact (C7_eventsHandler_spec "s3cret" _ [] rfl (by decide) rfl rfl).2.1 "xyz" rfl rfl
  · exact (C7_eventsHandler_spec "s3cret" _ [] rfl (by decide) rfl rfl).2.2 _ rfl rfl
      (by intro c; simp)

/-! ### C8: Telegram send retry -/

theorem telegramSendAttempts_from3 (results : Nat → Option GoErr) :
    telegramSendAttempts results 3 = 1 := by
  unfold telegramSendAttempts
  rw [dif_pos (by decide : telegramMaxAttempts ≤ 3)]

theorem telegramSendAttempts_from2 (results : Nat → Option GoErr) :
    telegramSendAttempts results 2 ≤ 2 := by
  unfold telegramSendAttempts
  rw [dif_neg (by decide : ¬ telegramMaxAttempts ≤ 2)]
  cases results 2 with
  | none => norm_num
  | some e =>
    dsimp only
    split
    · rw [telegramSendAttempts_from3]
    · norm_num

theorem telegramSendAttempts_from1 (results : Nat → Option GoErr) :
    telegramSendAttempts results 1 ≤ 3 := by
  unfold telegramSendAttempts
  rw [dif_neg (by decide : ¬ telegramMaxAttempts ≤ 1)]
  cases results 1 with
  | none => norm_num
  | some e =>
    dsimp only
    split
    · have h2 : telegramSendAttempts results (1 + 1) ≤ 2 :=
        telegramSendAttempts_from2 results
      omega
    · norm_num

/-- **C8.** The Telegram send-retry decision retries exactly on
`TooManyRequests` errors, network timeout/temporary errors and HTTP 5xx
errors, never when the error is (or wraps) context cancellation or
deadline exceeded; a positive `RetryAfter` is waited out in seconds;
and `Send` performs at most 3 attempts. -/
theorem C8_telegram_retry_spec :
    (∀ (e : GoErr) (attempt : Int),
      (shouldRetryTelegramSend (some e) attempt).1 = true ↔
        ((e.isCanceled = false ∧ e.isDeadlineExceeded = false) ∧
         (e.tooManyRetryAfter.isSome = true ∨
          (∃ timeout temporary, e.netErr = some (timeout, temporary) ∧
            (timeout = true ∨ temporary = true)) ∨
          isTelegram5xxError e.errString = true))) ∧
    (∀ (e : GoErr) (attempt : Int),
      e.isCanceled = true ∨ e.isDeadlineExceeded = true →
      shouldRetryTelegramSend (some e) attempt = (false, 0)) ∧
    (∀ (e : GoErr) (attempt retryAfter : Int),
      e.isCanceled = false → e.isDeadlineExceeded = false →
      e.tooManyRetryAfter = some retryAfter → 0 < retryAfter →
      shouldRetryTelegramSend (some e) attempt = (true, retryAfter * second)) ∧
    (∀ results : Nat → Option GoErr, telegramSendAttempts results 1 ≤ 3) := by
  refine ⟨fun e attempt => ?_, fun e attempt h => ?_,
    fun e attempt retryAfter hc hd hra hpos => ?_, telegramSendAttempts_from1⟩
  · unfold shouldRetryTelegramSend
    dsimp only
    by_cases hcd : (e.isCanceled || e.isDeadlineExceeded) = true
    · rw [if_pos hcd]
      simp only [Bool.or_eq_true] at hcd
      constructor
      · intro hfalse
        exact absurd hfalse (by simp)
      · rintro ⟨⟨h1, h2⟩, -⟩
        rcases hcd with h3 | h3
        · rw [h1] at h3; exact absurd h3 (by simp)
        · rw [h2] at h3; exact absurd h3 (by simp)
    · rw [if_neg hcd]
      simp only [Bool.or_eq_true, not_or, Bool.not_eq_true] at hcd
      rcases hcd with ⟨h1, h2⟩
      simp only [h1, h2, true_and]
      cases htm : e.tooManyRetryAfter with
      | some ra =>
        dsimp only
        constructor
        · intro
          exact Or.inl (by simp)
        · intro
          split <;> rfl
      | none =>
        simp only [Option.isSome_none, Bool.false_eq_true, false_or]
        cases hnet : e.netErr with
        | some tt =>
          obtain ⟨t, tmp⟩ := tt
          dsimp only
          by_cases htt : (t || tmp) = true
          · rw [if_pos htt]
            simp only [Bool.or_eq_true] at htt
            simp only [true_iff]
            exact Or.inl ⟨t, tmp, rfl, htt⟩
          · rw [if_neg htt]
            simp only [Bool.or_eq_true, not_or, Bool.not_eq_true] at htt
            rcases htt with ⟨ht, htmp⟩
            by_cases h5 : isTelegram5xxError e.errString = true
            · rw [if_pos h5]
              simp [h5]
            · rw [if_neg h5]
              simp only [Bool.not_eq_true] at h5
              constructor
              · intro hfalse
                exact absurd hfalse (by simp)
              · rintro (⟨t2, tmp2, heq, hor⟩ | h6)
                · injection heq with heq2
                  rcases Prod.mk.inj heq2 with ⟨h7, h8⟩
                  subst h7
                  subst h8
                  rcases hor with h9 | h9
                  · rw [ht] at h9; exact absurd h9 (by simp)
                  · rw [htmp] at h9; exact absurd h9 (by simp)
                · rw [h5] at h6; exact absurd h6 (by simp)
        | none =>
          dsimp only
          by_cases h5 : isTelegram5xxError e.errString = true
          · rw [if_pos h5]
            simp [h5]
          · rw [if_neg h5]
            simp only [Bool.not_eq_true] at h5
            constructor
            · intro hfalse
              exact absurd hfalse (by simp)
            · rintro (⟨t2, tmp2, heq, hor⟩ | h6)
              · exact absurd heq (by simp)
              · rw [h5] at h6; exact absurd h6 (by simp)
  · unfold shouldRetryTelegramSend
    dsimp only
    rw [if_pos (by rcases h with h | h <;> simp [h])]
  · unfold shouldRetryTelegramSend
    dsimp only
    rw [if_neg (by simp [hc, hd]), hra]
    dsimp only
    rw [if_pos hpos]

/-- Witness for C8 at concrete errors. -/
theorem C8_witness :
    shouldRetryTelegramSend
        (some { isCanceled := true, tooManyRetryAfter := some 7 }) 1 = (false, 0) ∧
    shouldRetryTelegramSend (some { tooManyRetryAfter := some 7 }) 1
      = (true, 7 * second) ∧
    (shouldRetryTelegramSend
        (some { errString := "telegram: sendMessage, 502 Bad Gateway" }) 2).1 = true ∧
    telegramSendAttempts (fun _ => some { netErr := some (true, false) }) 1 ≤ 3 := by
  refine ⟨?_, ?_, ?_, ?_⟩
  · exact C8_telegram_retry_spec.2.1 _ 1 (Or.inl rfl)
  · exact C8_telegram_retry_spec.2.2.1 _ 1 7 rfl rfl rfl (by norm_num)
  · refine (C8_telegram_retry_spec.1 _ 2).mpr ⟨⟨rfl, rfl⟩, Or.inr (Or.inr (by decide))⟩
  · exact C8_telegram_retry_spec.2.2.2 _

/-! ### C2: save/load round trip -/

theorem runOps_append (l1 l2 : List SessionOp) :
    ∀ sf : Session × List Line, runOps sf (l1 ++ l2) = runOps (runOps sf l1) l2 := by
  induction l1 with
  | nil => intro sf; rfl
  | cons op rest ih =>
    intro sf
    obtain ⟨s, f⟩ := sf
    cases op with
    | add role content ts tools => exact ih _
    | save meta sizeBig => exact ih _

theorem fileMessages_msgList (msgs : List Message) :
    fileMessages (msgs.map Line.msg) = msgs := by
  unfold fileMessages
  rw [List.filterMap_map]
  have : ((fun l => match l with
      | Line.msg m => some m
      | Line.meta _ => none) ∘ Line.msg) = some := rfl
  rw [this, List.filterMap_some]

theorem fileMessages_append (f1 f2 : List Line) :
    fileMessages (f1 ++ f2) = fileMessages f1 ++ fileMessages f2 := by
  unfold fileMessages
  exact List.filterMap_append _ _ _

/-- The invariant of a session run from `New` against its file: the
persisted count never exceeds the message count and the file's message
lines are exactly the persisted ones, in order. -/
theorem runOps_invariant (ops : List SessionOp) :
    ∀ (s : Session) (f : List Line),
      s.persistedMessages ≤ s.messages.length →
      fileMessages f = s.messages.take s.persistedMessages →
      ((runOps (s, f) ops).1.messages = s.messages ++ opMessages ops ∧
       (runOps (s, f) ops).1.persistedMessages
         ≤ (runOps (s, f) ops).1.messages.length ∧
       fileMessages (runOps (s, f) ops).2
         = (runOps (s, f) ops).1.messages.take
             (runOps (s, f) ops).1.persistedMessages) := by
  induction ops with
  | nil =>
    intro s f h1 h2
    exact ⟨by simp [runOps, opMessages], h1, h2⟩
  | cons op rest ih =>
    intro s f h1 h2
    cases op with
    | add role content ts tools =>
      have step : runOps (s, f) (SessionOp.add role content ts tools :: rest)
          = runOps (s.addWithTools role content ts tools, f) rest := rfl
      rw [step]
      have h1' : (s.addWithTools role content ts tools).persistedMessages
          ≤ (s.addWithTools role content ts tools).messages.length := by
        simp only [Session.addWithTools, List.length_append]
        simpa using Nat.le_succ_of_le h1
      have h2' : fileMessages f
          = (s.addWithTools role content ts tools).messages.take
              (s.addWithTools role content ts tools).persistedMessages := by
        simp only [Session.addWithTools]
        rw [List.take_append_of_le_length h1]
        exact h2
      obtain ⟨ha, hb, hc⟩ := ih _ _ h1' h2'
      refine ⟨?_, hb, hc⟩
      rw [ha]
      simp [Session.addWithTools, opMessages]
    | save meta sizeBig =>
      have hnb : ¬ s.messages.length < s.persistedMessages := by omega
      have step : runOps (s, f) (SessionOp.save meta sizeBig :: rest)
          = runOps (sessionSave meta sizeBig s f) rest := rfl
      rw [step]
      have hsave : sessionSave meta sizeBig s f
          = if shouldCompact sizeBig s then saveCompactLocked meta s
            else saveAppendLocked meta s f := by
        unfold sessionSave
        rw [if_neg hnb]
      by_cases hcomp : shouldCompact sizeBig s = true
      · rw [hsave, if_pos hcomp]
        have h1' : (saveCompactLocked meta s).1.persistedMessages
            ≤ (saveCompactLocked meta s).1.messages.length := by
          simp [saveCompactLocked]
        have h2' : fileMessages (saveCompactLocked meta s).2
            = (saveCompactLocked meta s).1.messages.take
                (saveCompactLocked meta s).1.persistedMessages := by
          simp only [saveCompactLocked]
          rw [List.take_length]
          unfold fileMessages
          rw [List.filterMap_cons]
          exact fileMessages_msgList s.messages
        obtain ⟨ha, hb, hc⟩ := ih _ _ h1' h2'
        exact ⟨by rw [ha]; simp [saveCompactLocked, opMessages], hb, hc⟩
      · rw [hsave, if_neg hcomp]
        have h1' : (saveAppendLocked meta s f).1.persistedMessages
            ≤ (saveAppendLocked meta s f).1.messages.length := by
          simp [saveAppendLocked]
        have h2' : fileMessages (saveAppendLocked meta s f).2
            = (saveAppendLocked meta s f).1.messages.take
                (saveAppendLocked meta s f).1.persistedMessages := by
          simp only [saveAppendLocked]
          rw [List.take_length, fileMessages_append, h2]
          unfold fileMessages
          rw [List.filterMap_cons]
          have := fileMessages_msgList (s.messages.drop s.persistedMessages)
          unfold fileMessages at this
          rw [this]
          exact List.take_append_drop _ _
        obtain ⟨ha, hb, hc⟩ := ih _ _ h1' h2'
        exact ⟨by rw [ha]; simp [saveAppendLocked, opMessages], hb, hc⟩

theorem metaLineCount_compact (meta : MetadataLine) (msgs : List Message) :
    metaLineCount (Line.meta meta :: msgs.map Line.msg) = 1 := by
  unfold metaLineCount
  rw [List.filter_cons]
  simp only [if_pos]
  rw [List.filter_map]
  have : ((fun l => match l with
      | Line.meta _ => true
      | Line.msg _ => false) ∘ Line.msg) = fun _ => false := rfl
  rw [this]
  simp

theorem opMessages_append (l1 l2 : List SessionOp) :
    opMessages (l1 ++ l2) = opMessages l1 ++ opMessages l2 := by
  induction l1 with
  | nil => rfl
  | cons op rest ih =>
    cases op with
    | add role content ts tools => simp [opMessages, ih]
    | save meta sizeBig => simp [opMessages, ih]

/-- **C2.** Running any interleaving of appends and saves from a fresh
session and then a final `Save`: the file's message lines (what `Load`
accumulates) are exactly the appended messages in order; and whenever a
`Save` takes the compaction path, the resulting file is exactly one
metadata line followed by all of the session's messages in order. -/
theorem C2_save_load_round_trip (ops : List SessionOp) (meta : MetadataLine)
    (sizeBig : Bool) :
    fileMessages (runOps (Session.new, []) (ops ++ [SessionOp.save meta sizeBig])).2
      = opMessages ops ∧
    (shouldCompact sizeBig (runOps (Session.new, []) ops).1 = true →
      (runOps (Session.new, []) (ops ++ [SessionOp.save meta sizeBig])).2
        = Line.meta meta ::
            (runOps (Session.new, []) (ops ++ [SessionOp.save meta sizeBig])).1.messages.map
              Line.msg ∧
      metaLineCount
        (runOps (Session.new, []) (ops ++ [SessionOp.save meta sizeBig])).2 = 1) := by
  have happ : runOps (Session.new, []) (ops ++ [SessionOp.save meta sizeBig])
      = runOps (runOps (Session.new, []) ops) [SessionOp.save meta sizeBig] :=
    runOps_append ops [SessionOp.save meta sizeBig] _
  obtain ⟨hinv1, hinv2, hinv3⟩ := runOps_invariant ops Session.new []
    (by simp [Session.new]) (by simp [Session.new, fileMessages])
  have hpair : runOps (Session.new, []) ops
      = ((runOps (Session.new, []) ops).1, (runOps (Session.new, []) ops).2) := rfl
  have hrunstep : runOps (runOps (Session.new, []) ops) [SessionOp.save meta sizeBig]
      = sessionSave meta sizeBig (runOps (Session.new, []) ops).1
          (runOps (Session.new, []) ops).2 := by
    rw [hpair]
    rfl
  have hnb : ¬ (runOps (Session.new, []) ops).1.messages.length
      < (runOps (Session.new, []) ops).1.persistedMessages := by omega
  have hsave : sessionSave meta sizeBig (runOps (Session.new, []) ops).1
        (runOps (Session.new, []) ops).2
      = if shouldCompact sizeBig (runOps (Session.new, []) ops).1
        then saveCompactLocked meta (runOps (Session.new, []) ops).1
        else saveAppendLocked meta (runOps (Session.new, []) ops).1
          (runOps (Session.new, []) ops).2 := by
    unfold sessionSave
    rw [if_neg hnb]
  constructor
  · obtain ⟨ha2, hb2, hc2⟩ :=
      runOps_invariant (ops ++ [SessionOp.save meta sizeBig]) Session.new []
        (by simp [Session.new]) (by simp [Session.new, fileMessages])
    have hpers :
        (runOps (Session.new, []) (ops ++ [SessionOp.save meta sizeBig])).1.persistedMessages
          = (runOps (Session.new, []) (ops ++ [SessionOp.save meta sizeBig])).1.messages.length := by
      rw [happ, hrunstep, hsave]
      split_ifs <;> simp [saveCompactLocked, saveAppendLocked]
    rw [hc2, hpers, List.take_length, ha2, opMessages_append]
    simp [opMessages, Session.new]
  · intro hcomp
    rw [happ, hrunstep, hsave, if_pos hcomp]
    refine ⟨?_, ?_⟩
    · simp [saveCompactLocked]
    · simp only [saveCompactLocked]
      exact metaLineCount_compact meta _

/-- Witness for C2: one append then a size-triggered compacting save. -/
theorem C2_witness :
    shouldCompact true
      (runOps (Session.new, []) [SessionOp.add "user" "u1" "t1" []]).1 = true ∧
    fileMessages (runOps (Session.new, [])
        ([SessionOp.add "user" "u1" "t1" []]
          ++ [SessionOp.save { createdAt := "c", updatedAt := "u" } true])).2
      = [{ role := "user", content := "u1", timestamp := "t1", toolsUsed := [] }] ∧
    metaLineCount (runOps (Session.new, [])
        ([SessionOp.add "user" "u1" "t1" []]
          ++ [SessionOp.save { createdAt := "c", updatedAt := "u" } true])).2 = 1 := by
  refine ⟨by decide, ?_, ?_⟩
  · have h := (C2_save_load_round_trip [SessionOp.add "user" "u1" "t1" []]
      { createdAt := "c", updatedAt := "u" } true).1
    rw [h]
    decide
  · exact ((C2_save_load_round_trip [SessionOp.add "user" "u1" "t1" []]
      { createdAt := "c", updatedAt := "u" } true).2 (by decide)).2

/-! ### C3: exec guard -/

/-- If the per-path loop rejects nothing, every extracted path is
either blank, or passes the sensitive-path policy and (when restricted)
lies within the workspace. -/
theorem guardPathsLoop_empty (env : ExecEnv) (restrict : Bool) (wsAbs : String) :
    ∀ l : List String, guardPathsLoop env restrict wsAbs l = "" →
      ∀ raw ∈ l, goTrimSpace raw = "" ∨
        (pathBlockedByPolicy env.cfgDir (expandHomePath env.home (goTrimSpace raw))
            = false ∧
         (restrict = true →
           guardIsWithin wsAbs (expandHomePath env.home (goTrimSpace raw)) = true)) := by
  intro l
  induction l with
  | nil => intro _ raw h; simp at h
  | cons x rest ih =>
    intro hloop raw hmem
    unfold guardPathsLoop at hloop
    by_cases hx : goTrimSpace x = ""
    · rw [if_pos hx] at hloop
      rcases List.mem_cons.mp hmem with rfl | h2
      · exact Or.inl hx
      · exact ih hloop raw h2
    · rw [if_neg hx] at hloop
      by_cases hpb : pathBlockedByPolicy env.cfgDir
          (expandHomePath env.home (goTrimSpace x)) = true
      · rw [if_pos hpb] at hloop
        exact absurd hloop (by decide)
      · rw [if_neg hpb] at hloop
        have hpb' : pathBlockedByPolicy env.cfgDir
            (expandHomePath env.home (goTrimSpace x)) = false := by
          simpa using hpb
        by_cases hres : restrict = true
        · rw [if_neg (by simp [hres])] at hloop
          by_cases hwin : guardIsWithin wsAbs
              (expandHomePath env.home (goTrimSpace x)) = true
          · rw [if_pos hwin] at hloop
            rcases List.mem_cons.mp hmem with rfl | h2
            · exact Or.inr ⟨hpb', fun _ => hwin⟩
            · exact ih hloop raw h2
          · rw [if_neg hwin] at hloop
            exact absurd hloop (by decide)
        · rw [if_pos (by simp [Bool.not_eq_true] at hres ⊢; simp [hres])] at hloop
          rcases List.mem_cons.mp hmem with rfl | h2
          · exact Or.inr ⟨hpb', fun hcon => absurd hcon hres⟩
          · exact ih hloop raw h2

/-- If the guard accepts a non-blank command, every structural check
failed and the per-path loop rejected nothing. -/
theorem guard_empty_conditions (env : ExecEnv) (command workspaceDir : String)
    (restrict : Bool) (hc : goTrimSpace command ≠ "")
    (h : guardExecCommand env command workspaceDir restrict = "") :
    (goContains (goTrimSpace command) (String.mk [backtickChar]) = false ∧
     goContains (goTrimSpace command) "$(" = false ∧
     goContains (goTrimSpace command) (String.mk ['$', lbraceChar]) = false ∧
     goContains (goTrimSpace command) "<(" = false ∧
     goContains (goTrimSpace command) ">(" = false) ∧
    (goContains (goTrimSpace command) ";" = false ∧
     goContains (goTrimSpace command) "\n" = false) ∧
    goContains (goTrimSpace command) ">" = false ∧
    containsSingleAmpersand (goTrimSpace command) = false ∧
    hasToken (goTrimSpace command) "tee" = false ∧
    execDenyMatch (goToLower (goTrimSpace command)) = false ∧
    (restrict = true → goContains (goTrimSpace command) "../" = false ∧
      goContains (goTrimSpace command) "..\\" = false) ∧
    guardPathsLoop env restrict (goPathClean (goAbs env.cwd workspaceDir))
      (extractCommandPaths (goTrimSpace command)) = "" := by
  unfold guardExecCommand at h
  rw [if_neg hc] at h
  dsimp only at h
  by_cases h1 : (goContains (goTrimSpace command) (String.mk [backtickChar]) ||
      goContains (goTrimSpace command) "$(" ||
      goContains (goTrimSpace command) (String.mk ['$', lbraceChar]) ||
      goContains (goTrimSpace command) "<(" ||
      goContains (goTrimSpace command) ">(") = true
  · rw [if_pos h1] at h
    exact absurd h (by decide)
  · rw [if_neg h1] at h
    by_cases h2 : (goContains (goTrimSpace command) ";" ||
        goContains (goTrimSpace command) "\n") = true
    · rw [if_pos h2] at h
      exact absurd h (by decide)
    · rw [if_neg h2] at h
      by_cases h3 : goContains (goTrimSpace command) ">" = true
      · rw [if_pos h3] at h
        exact absurd h (by decide)
      · rw [if_neg h3] at h
        by_cases h4 : containsSingleAmpersand (goTrimSpace command) = true
        · rw [if_pos h4] at h
          exact absurd h (by decide)
        · rw [if_neg h4] at h
          by_cases h5 : hasToken (goTrimSpace command) "tee" = true
          · rw [if_pos h5] at h
            exact absurd h (by decide)
          · rw [if_neg h5] at h
            by_cases h6 : execDenyMatch (goToLower (goTrimSpace command)) = true
            · rw [if_pos h6] at h
              exact absurd h (by decide)
            · rw [if_neg h6] at h
              by_cases h7 : (restrict && (goContains (goTrimSpace command) "../" ||
                  goContains (goTrimSpace command) "..\\")) = true
              · rw [if_pos h7] at h
                exact absurd h (by decide)
              · rw [if_neg h7] at h
                by_cases h8 : (restrict &&
                    reMatchString reHomeToken (goTrimSpace command)) = true
                · rw [if_pos h8] at h
                  exact absurd h (by decide)
                · rw [if_neg h8] at h
                  simp only [Bool.or_eq_true, not_or, Bool.not_eq_true] at h1 h2
                  obtain ⟨⟨⟨⟨e1, e2⟩, e3⟩, e4⟩, e5⟩ := h1
                  obtain ⟨s1, s2⟩ := h2
                  simp only [Bool.not_eq_true] at h3 h4 h5 h6
                  refine ⟨⟨e1, e2, e3, e4, e5⟩, ⟨s1, s2⟩, h3, h4, h5, h6, ?_, h⟩
                  intro hres
                  rw [hres] at h7
                  simp only [Bool.true_and, Bool.or_eq_true, not_or,
                    Bool.not_eq_true] at h7
                  exact h7

/-- **C3.** The exec guard rejects (returns a non-empty block message
for) every command whose lowercased trimmed form matches a danger
regex; with workspace restriction on, every command containing a `../`
traversal and every command from which it extracts an absolute path
lying outside the workspace; regardless of restriction, every command
from which it extracts a path under the sensitive config directories;
and, also regardless of restriction, the structural patterns: `>`
redirection, `;`/newline chaining, a single `&`, a `tee` token, and
backtick/`$(`/`${`/`<(`/`>(` substitution. -/
theorem C3_guardExecCommand_spec (env : ExecEnv) (command workspaceDir : String)
    (restrict : Bool) :
    (execDenyMatch (goToLower (goTrimSpace command)) = true →
      guardExecCommand env command workspaceDir restrict ≠ "") ∧
    (restrict = true → goContains (goTrimSpace command) "../" = true →
      guardExecCommand env command workspaceDir restrict ≠ "") ∧
    (restrict = true →
      ∀ raw ∈ extractCommandPaths (goTrimSpace command), goTrimSpace raw ≠ "" →
        guardIsWithin (goPathClean (goAbs env.cwd workspaceDir))
          (expandHomePath env.home (goTrimSpace raw)) = false →
        guardExecCommand env command workspaceDir restrict ≠ "") ∧
    (∀ raw ∈ extractCommandPaths (goTrimSpace command), goTrimSpace raw ≠ "" →
      pathBlockedByPolicy env.cfgDir (expandHomePath env.home (goTrimSpace raw))
          = true →
      guardExecCommand env command workspaceDir restrict ≠ "") ∧
    (goContains (goTrimSpace command) ">" = true →
      guardExecCommand env command workspaceDir restrict ≠ "") ∧
    (goContains (goTrimSpace command) ";" = true ∨
     goContains (goTrimSpace command) "\n" = true →
      guardExecCommand env command workspaceDir restrict ≠ "") ∧
    (containsSingleAmpersand (goTrimSpace command) = true →
      guardExecCommand env command workspaceDir restrict ≠ "") ∧
    (hasToken (goTrimSpace command) "tee" = true →
      guardExecCommand env command workspaceDir restrict ≠ "") ∧
    (goContains (goTrimSpace command) (String.mk [backtickChar]) = true ∨
     goContains (goTrimSpace command) "$(" = true ∨
     goContains (goTrimSpace command) (String.mk ['$', lbraceChar]) = true ∨
     goContains (goTrimSpace command) "<(" = true ∨
     goContains (goTrimSpace command) ">(" = true →
      guardExecCommand env command workspaceDir restrict ≠ "") := by
  refine ⟨fun hd h => ?_, fun hres ht h => ?_, fun hres raw hmem hne hout h => ?_,
    fun raw hmem hne hblk h => ?_, fun hr h => ?_, fun hch h => ?_,
    fun hamp h => ?_, fun htee h => ?_, fun hsub h => ?_⟩
  · by_cases hc : goTrimSpace command = ""
    · rw [hc] at hd
      exact absurd hd (by decide)
    · have hcond := guard_empty_conditions env command workspaceDir restrict hc h
      rw [hcond.2.2.2.2.2.1] at hd
      exact absurd hd (by decide)
  · by_cases hc : goTrimSpace command = ""
    · rw [hc] at ht
      exact absurd ht (by decide)
    · have hcond := guard_empty_conditions env command workspaceDir restrict hc h
      rw [(hcond.2.2.2.2.2.2.1 hres).1] at ht
      exact absurd ht (by decide)
  · by_cases hc : goTrimSpace command = ""
    · rw [hc] at hmem
      have hext : extractCommandPaths "" = [] := by decide
      rw [hext] at hmem
      simp at hmem
    · have hcond := guard_empty_conditions env command workspaceDir restrict hc h
      have := guardPathsLoop_empty env restrict _ _ hcond.2.2.2.2.2.2.2 raw hmem
      rcases this with hbl | ⟨-, hwin⟩
      · exact hne hbl
      · rw [hwin hres] at hout
        exact absurd hout (by decide)
  · by_cases hc : goTrimSpace command = ""
    · rw [hc] at hmem
      have hext : extractCommandPaths "" = [] := by decide
      rw [hext] at hmem
      simp at hmem
    · have hcond := guard_empty_conditions env command workspaceDir restrict hc h
      have := guardPathsLoop_empty env restrict _ _ hcond.2.2.2.2.2.2.2 raw hmem
      rcases this with hbl | ⟨hnb, -⟩
      · exact hne hbl
      · rw [hnb] at hblk
        exact absurd hblk (by decide)
  · by_cases hc : goTrimSpace command = ""
    · rw [hc] at hr
      exact absurd hr (by decide)
    · have hcond := guard_empty_conditions env command workspaceDir restrict hc h
      rw [hcond.2.2.1] at hr
      exact absurd hr (by decide)
  · by_cases hc : goTrimSpace command = ""
    · rw [hc] at hch
      rcases hch with hch | hch <;> exact absurd hch (by decide)
    · have hcond := guard_empty_conditions env command workspaceDir restrict hc h
      rcases hch with hch | hch
      · rw [hcond.2.1.1] at hch
        exact absurd hch (by decide)
      · rw [hcond.2.1.2] at hch
        exact absurd hch (by decide)
  · by_cases hc : goTrimSpace command = ""
    · rw [hc] at hamp
      exact absurd hamp (by decide)
    · have hcond := guard_empty_conditions env command workspaceDir restrict hc h
      rw [hcond.2.2.2.1] at hamp
      exact absurd hamp (by decide)
  · by_cases hc : goTrimSpace command = ""
    · rw [hc] at htee
      exact absurd htee (by decide)
    · have hcond := guard_empty_conditions env command workspaceDir restrict hc h
      rw [hcond.2.2.2.2.1] at htee
      exact absurd htee (by decide)
  · by_cases hc : goTrimSpace command = ""
    · rw [hc] at hsub
      rcases hsub with h5 | h5 | h5 | h5 | h5 <;> exact absurd h5 (by decide)
    · have hcond := guard_empty_conditions env command workspaceDir restrict hc h
      obtain ⟨⟨e1, e2, e3, e4, e5⟩, -⟩ := hcond
      rcases hsub with h5 | h5 | h5 | h5 | h5
      · rw [e1] at h5; exact absurd h5 (by decide)
      · rw [e2] at h5; exact absurd h5 (by decide)
      · rw [e3] at h5; exact absurd h5 (by decide)
      · rw [e4] at h5; exact absurd h5 (by decide)
      · rw [e5] at h5; exact absurd h5 (by decide)

/-- Witness for C3 at concrete commands against `sampleEnv`
(workspace `/home/u/ws`). -/
theorem C3_witness :
    (execDenyMatch (goToLower (goTrimSpace "shutdown now")) = true ∧
      guardExecCommand sampleEnv "shutdown now" "/home/u/ws" true ≠ "") ∧
    guardExecCommand sampleEnv "cat ../secret" "/home/u/ws" true ≠ "" ∧
    ("/etc/passwd" ∈ extractCommandPaths (goTrimSpace "cat /etc/passwd") ∧
      guardExecCommand sampleEnv "cat /etc/passwd" "/home/u/ws" true ≠ "") ∧
    guardExecCommand sampleEnv "cat /home/u/.clawlet/auth/t" "/home/u/ws" false ≠ "" ∧
    guardExecCommand sampleEnv "echo hi > f" "/home/u/ws" false ≠ "" ∧
    guardExecCommand sampleEnv "ls | tee f" "/home/u/ws" false ≠ "" := by
  refine ⟨⟨by decide, ?_⟩, ?_, ⟨by decide, ?_⟩, ?_, ?_, ?_⟩
  · exact (C3_guardExecCommand_spec sampleEnv "shutdown now" "/home/u/ws" true).1
      (by decide)
  · exact (C3_guardExecCommand_spec sampleEnv "cat ../secret" "/home/u/ws" true).2.1
      rfl (by decide)
  · exact (C3_guardExecCommand_spec sampleEnv "cat /etc/passwd" "/home/u/ws"
      true).2.2.1 rfl "/etc/passwd" (by decide) (by decide) (by decide)
  · exact (C3_guardExecCommand_spec sampleEnv "cat /home/u/.clawlet/auth/t"
      "/home/u/ws" false).2.2.2.1 "/home/u/.clawlet/auth/t" (by decide) (by decide)
      (by decide)
  · exact (C3_guardExecCommand_spec sampleEnv "echo hi > f" "/home/u/ws"
      false).2.2.2.2.1 (by decide)
  · exact (C3_guardExecCommand_spec sampleEnv "ls | tee f" "/home/u/ws"
      false).2.2.2.2.2.2.2.1 (by decide)

end Clawlet
